import Mathlib

/-!
Shallow embedding of the OMOP_Semantics concept-registry core
(`src/omop_semantics/schema/registry.py`, `schema_model.py`), the semantic
resolver (`runtime/resolver.py`) and the value-set namespace runtime
(`runtime/value_sets.py`), together with proofs about them.

Python dictionaries are modelled as association lists with last-write-wins
insertion (`dinsert`), Python sets as duplicate-free lists (`sinsert`),
`str.lower()` as a character-wise lowering (`strLower`), raised exceptions as
`Except` values carrying structured error data, and `None` as `Option`.
-/

deriving instance DecidableEq for Except

namespace OmopSemantics

/-- Lookup in an association-list model of a Python dict: first binding wins
(bindings are kept key-unique by `dinsert`). -/
def dlookup {K V : Type} [DecidableEq K] (k : K) : List (K × V) → Option V
  | [] => none
  | (k', v) :: rest => if k' = k then some v else dlookup k rest

/-- Model of the Python dict assignment `d[k] = v`: any existing binding of
`k` is dropped and the new binding appended. -/
def dinsert {K V : Type} [DecidableEq K] (k : K) (v : V) (m : List (K × V)) : List (K × V) :=
  (m.filter (fun p => p.1 ≠ k)) ++ [(k, v)]

/-- Model of `defaultdict` access followed by an update: the function `f`
receives the current binding (or `none`) and produces the new value. -/
def dupdate {K V : Type} [DecidableEq K] (k : K) (f : Option V → V) (m : List (K × V)) : List (K × V) :=
  dinsert k (f (dlookup k m)) m

/-- Model of Python `set.add` on a set represented as a duplicate-free list. -/
def sinsert {α : Type} [DecidableEq α] (x : α) (s : List α) : List α :=
  if x ∈ s then s else s ++ [x]

/-- Model of Python `str.lower()` (`String.toLower` does not reduce in the
kernel, so we lower character-wise over the underlying list). -/
def strLower (s : String) : String := ⟨s.data.map Char.toLower⟩

/-- Model of Python `str.startswith("_")`. -/
def startsWithUnderscore (s : String) : Bool :=
  match s.data with
  | [] => false
  | c :: _ => c = '_'

/-- Role metadata entry (`schema_model.RoleDefinition`). -/
structure RoleDefinition where
  name : String
  description : Option String
  category : Option String
deriving DecidableEq, Repr

/-- Schema metadata (`schema_model.SchemaInfo`): declared roles and classes. -/
structure SchemaInfo where
  roles : List (String × RoleDefinition)
  classes : List String
deriving DecidableEq, Repr

/-- Concept value type (`schema_model.ConceptRecord`). -/
structure ConceptRecord where
  concept_id : Int
  label : String
  role : String
  parents : List Int
  notes : Option String
  value_type : Option String
deriving DecidableEq, Repr

/-- Group value type (`schema_model.ConceptGroupRecord`). -/
structure ConceptGroupRecord where
  name : String
  role : String
  members : List Int
  notes : Option String
  kind : Option String
  exclusive : Bool
deriving DecidableEq, Repr

/-- State of a `registry.ConceptRegistry` instance after `__init__` has run:
the primary concept and group dicts, the schema, and the secondary indexes. -/
structure ConceptRegistry where
  _concepts : List (Int × ConceptRecord)
  _groups : List (String × ConceptGroupRecord)
  _schema : Option SchemaInfo
  _by_role : List (String × List Int)
  _by_label : List (String × Int)
  _groups_by_member : List (Int × List String)
  _groups_by_role : List (String × List (String × ConceptGroupRecord))
deriving DecidableEq

namespace ConceptRegistry

/-- Body of the `for cid in g.members` loop of `ConceptRegistry.__init__`:
records the group's original-case name against the member id, and the group
under its role keyed by lowercase name. -/
def groupMemberStep (g : ConceptGroupRecord) (st : ConceptRegistry) (cid : Int) : ConceptRegistry :=
  { st with
    _groups_by_member := dupdate cid (fun o => sinsert g.name (o.getD [])) st._groups_by_member
    _groups_by_role := dupdate g.role (fun o => dinsert (strLower g.name) g (o.getD [])) st._groups_by_role }

/-- Body of the `for g in groups` loop of `ConceptRegistry.__init__`. -/
def groupStep (st : ConceptRegistry) (g : ConceptGroupRecord) : ConceptRegistry :=
  g.members.foldl (groupMemberStep g)
    { st with _groups := dinsert (strLower g.name) g st._groups }

/-- Body of the `for c in concepts` loop of `ConceptRegistry.__init__`:
last-write-wins on the id key, accumulate the role index, last-write-wins on
the lowercase-label index. -/
def conceptStep (st : ConceptRegistry) (c : ConceptRecord) : ConceptRegistry :=
  { st with
    _concepts := dinsert c.concept_id c st._concepts
    _by_role := dupdate c.role (fun o => sinsert c.concept_id (o.getD [])) st._by_role
    _by_label := dinsert (strLower c.label) c.concept_id st._by_label }

/-- Model of `ConceptRegistry.__init__`: groups are indexed first, then
concepts; the ancestor cache starts empty (it is threaded explicitly through
`ancestors_of` below, since the embedding is pure). -/
def init (concepts : List ConceptRecord) (groups : List ConceptGroupRecord)
    (schema : Option SchemaInfo) : ConceptRegistry :=
  concepts.foldl conceptStep
    (groups.foldl groupStep ⟨[], [], schema, [], [], [], []⟩)

/-- Model of `ConceptRegistry.get` (`self._concepts[concept_id]`); the Python
`KeyError` on a missing id is modelled by `none`. -/
def get (r : ConceptRegistry) (concept_id : Int) : Option ConceptRecord :=
  dlookup concept_id r._concepts

/-- Model of `ConceptRegistry.try_get`. -/
def try_get (r : ConceptRegistry) (concept_id : Int) : Option ConceptRecord :=
  dlookup concept_id r._concepts

/-- Model of `ConceptRegistry.has`. -/
def has (r : ConceptRegistry) (concept_id : Int) : Bool :=
  (dlookup concept_id r._concepts).isSome

/-- Model of `ConceptRegistry.by_role`: the indexed id set for the role,
empty if the role is unindexed. -/
def by_role (r : ConceptRegistry) (role : String) : List Int :=
  (dlookup role r._by_role).getD []

/-- Model of `ConceptRegistry.is_role`. -/
def is_role (r : ConceptRegistry) (concept_id : Int) (role : String) : Bool :=
  concept_id ∈ by_role r role

/-- Model of `ConceptRegistry.unknowns`. -/
def unknowns (r : ConceptRegistry) : List Int :=
  (dlookup "unknown" r._by_role).getD []

/-- Model of `ConceptRegistry.is_unknown`: `None` counts as unknown. -/
def is_unknown (r : ConceptRegistry) (concept_id : Option Int) : Bool :=
  match concept_id with
  | none => true
  | some i => i ∈ unknowns r

/-- Model of `ConceptRegistry.default_unknown`: exact lowercase label match
tagged unknown first, then the lowest-id unknown, else the `KeyError`
"No unknown concepts registered". -/
def default_unknown (r : ConceptRegistry) (label_hint : String) : Except String Int :=
  let fb : Except String Int :=
    match (unknowns r).insertionSort (· ≤ ·) with
    | u :: _ => .ok u
    | [] => .error "No unknown concepts registered"
  match dlookup (strLower label_hint) r._by_label with
  | some cid => if is_unknown r (some cid) then .ok cid else fb
  | none => fb

/-- Model of `ConceptRegistry.group` (`self._groups[name.lower()]`); the
`KeyError` is modelled by `none`. -/
def group (r : ConceptRegistry) (name : String) : Option ConceptGroupRecord :=
  dlookup (strLower name) r._groups

/-- Model of `ConceptRegistry.try_group`. -/
def try_group (r : ConceptRegistry) (name : String) : Option ConceptGroupRecord :=
  dlookup (strLower name) r._groups

/-- Model of `ConceptRegistry.group_members`. -/
def group_members (r : ConceptRegistry) (name : String) : Option (List Int) :=
  (group r name).map (fun g => g.members)

/-- Model of `ConceptRegistry.groups_for`. -/
def groups_for (r : ConceptRegistry) (concept_id : Int) : List String :=
  (dlookup concept_id r._groups_by_member).getD []

/-- Model of `ConceptRegistry.in_group`: membership of the *original-case*
group name in the reverse-membership index (the argument is not lowercased). -/
def in_group (r : ConceptRegistry) (concept_id : Int) (g : String) : Bool :=
  g ∈ (dlookup concept_id r._groups_by_member).getD []

/-- Model of `ConceptRegistry.by_label` (`KeyError` as `none`). -/
def by_label (r : ConceptRegistry) (label : String) : Option Int :=
  dlookup (strLower label) r._by_label

/-- Model of `ConceptRegistry.try_by_label`. -/
def try_by_label (r : ConceptRegistry) (label : String) : Option Int :=
  dlookup (strLower label) r._by_label

end ConceptRegistry

/-- Structured model of the `ValueError`s raised by `ConceptRegistry.validate`,
carrying the context the Python message interpolates. -/
inductive ValidationError where
  | missingClasses (missing : List String)
  | unknownRoleConcept (role : String) (concept_id : Int)
  | unknownRoleGroup (role : String) (name : String)
  | missingParent (concept_id : Int) (parent_id : Int)
  | missingGroupMember (name : String) (member_id : Int)
deriving DecidableEq, Repr

/-- First failure of `f` over `l`, or success: models a Python loop that
raises on the first offending element. -/
def firstErr {α : Type} (l : List α) (f : α → Option ValidationError) :
    Except ValidationError Unit :=
  match l with
  | [] => .ok ()
  | a :: rest =>
    match f a with
    | some e => .error e
    | none => firstErr rest f

namespace ConceptRegistry

/-- Model of `ConceptRegistry.validate`: schema-class check, role checks,
parent-existence check, group-member-existence check, in source order. Note
that the `strict_parents` section checks only that each parent id is present
in `self._concepts`; it contains no cycle detection. -/
def validate (r : ConceptRegistry) (strict_roles strict_parents strict_group_members strict_schema_classes : Bool) :
    Except ValidationError Unit := do
  match r._schema with
  | some sc =>
    if strict_schema_classes then
      match ["ConceptGroup", "OmopConcept"].filter (fun s => s ∉ sc.classes) with
      | [] => pure ()
      | missing => throw (ValidationError.missingClasses missing)
    else pure ()
  | none => pure ()
  match r._schema with
  | some sc =>
    if strict_roles then do
      firstErr (r._concepts.map Prod.snd) (fun c =>
        if (dlookup c.role sc.roles).isNone then some (.unknownRoleConcept c.role c.concept_id) else none)
      firstErr (r._groups.map Prod.snd) (fun g =>
        if (dlookup g.role sc.roles).isNone then some (.unknownRoleGroup g.role g.name) else none)
    else pure ()
  | none => pure ()
  if strict_parents then
    firstErr (r._concepts.map Prod.snd) (fun c =>
      (c.parents.find? (fun pid => !(has r pid))).map (fun pid => .missingParent c.concept_id pid))
  else pure ()
  if strict_group_members then
    firstErr (r._groups.map Prod.snd) (fun g =>
      (g.members.find? (fun mid => !(has r mid))).map (fun mid => .missingGroupMember g.name mid))
  else pure ()

/-- Model of `ConceptRegistry.with_added_concept`: rebuild from the stored
concept values plus the new concept, keeping groups and schema. -/
def with_added_concept (r : ConceptRegistry) (concept : ConceptRecord) : ConceptRegistry :=
  init (r._concepts.map Prod.snd ++ [concept]) (r._groups.map Prod.snd) r._schema

end ConceptRegistry

/-- Structured model of the `ValueError`s raised by `ConceptRegistry.merge`
with the `error` strategy, carrying the two conflicting values. -/
inductive MergeError where
  | conflictConcept (concept_id : Int) (c1 c2 : ConceptRecord)
  | conflictGroup (gk : String) (g1 g2 : ConceptGroupRecord)
deriving DecidableEq, Repr

namespace ConceptRegistry

/-- Shared body of the two near-identical loops of `ConceptRegistry.merge`
(one over `other._concepts`, one over `other._groups`): insert missing keys,
and on a value conflict keep self, take other, or raise, per strategy. -/
def mergeStepKV {K V : Type} [DecidableEq K] [DecidableEq V]
    (strategy : String) (conflict : K → V → V → MergeError)
    (acc : Except MergeError (List (K × V))) (p : K × V) :
    Except MergeError (List (K × V)) := do
  let cur ← acc
  match dlookup p.1 cur with
  | none => pure (dinsert p.1 p.2 cur)
  | some v1 =>
    if v1 ≠ p.2 then
      if strategy = "prefer_other" then pure (dinsert p.1 p.2 cur)
      else if strategy = "error" then throw (conflict p.1 v1 p.2)
      else pure cur
    else pure cur

/-- Concept loop body of `ConceptRegistry.merge`. -/
def mergeStepConcept (strategy : String) (acc : Except MergeError (List (Int × ConceptRecord)))
    (p : Int × ConceptRecord) : Except MergeError (List (Int × ConceptRecord)) :=
  mergeStepKV strategy MergeError.conflictConcept acc p

/-- Group loop body of `ConceptRegistry.merge` (keys are already the
lowercase names). -/
def mergeStepGroup (strategy : String) (acc : Except MergeError (List (String × ConceptGroupRecord)))
    (p : String × ConceptGroupRecord) : Except MergeError (List (String × ConceptGroupRecord)) :=
  mergeStepKV strategy MergeError.conflictGroup acc p

/-- Model of `ConceptRegistry.merge`: combine concept dicts then group dicts
under the strategy, keep self's schema unless absent, and rebuild. -/
def merge (r other : ConceptRegistry) (strategy : String) : Except MergeError ConceptRegistry := do
  let concepts ← other._concepts.foldl (mergeStepConcept strategy) (pure r._concepts)
  let groups ← other._groups.foldl (mergeStepGroup strategy) (pure r._groups)
  let schema := match r._schema with
    | some s => some s
    | none => other._schema
  pure (init (concepts.map Prod.snd) (groups.map Prod.snd) schema)

end ConceptRegistry

/-- Interior of an id universe fold step: collect a concept entry's key and
its parent ids. -/
def idStep (p : Int × ConceptRecord) (acc : Finset Int) : Finset Int :=
  insert p.1 (p.2.parents.foldr insert acc)

/-- All identifiers mentioned by a registry's concept dict (keys and parent
ids); the ancestor closure of any id lives inside this finite universe. -/
def idUniverse (r : ConceptRegistry) : Finset Int :=
  r._concepts.foldr idStep ∅

/-- Direct parents of an identifier, as the spec's `parents_of`: the stored
concept's `parents`, or empty when the id is not registered. -/
def parents_of (r : ConceptRegistry) (x : Int) : List Int :=
  match r.get x with
  | some c => c.parents
  | none => []

/-- One expansion step of the ancestor closure: keep the set and add the
direct parents of each of its members. -/
def ancStep (r : ConceptRegistry) (s : Finset Int) : Finset Int :=
  s ∪ s.biUnion (fun p => (parents_of r p).toFinset)

/-- Iterated expansion. -/
def ancIter (r : ConceptRegistry) : Nat → Finset Int → Finset Int
  | 0, s => s
  | n + 1, s => ancIter r n (ancStep r s)

/-- Modelled from the spec: `ConceptRegistry.ancestors_of` is declared in the
spec (transitive closure over `parents` edges, computed by a traversal that
guards against revisits) but only its cache `_ancestor_cache` appears in
`src/omop_semantics/schema/registry.py` (line 40); the method body itself is
not in the source tree. The closure is computed here by saturating the
parent-expansion step inside the registry's finite id universe, which is the
value the spec's revisit-guarded depth-first traversal computes. -/
def ancestors_closure (r : ConceptRegistry) (x : Int) : Finset Int :=
  ancIter r ((idUniverse r).card + 1) (parents_of r x).toFinset

/-- Modelled from the spec: the memoized `ancestors_of(id)` query. The
per-identifier `_ancestor_cache` of the Python instance is threaded
explicitly: a hit returns the cached tuple, a miss computes the closure and
stores it. -/
def ancestors_of (r : ConceptRegistry) (cache : List (Int × Finset Int)) (x : Int) :
    Finset Int × List (Int × Finset Int) :=
  match dlookup x cache with
  | some v => (v, cache)
  | none => (ancestors_closure r x, dinsert x (ancestors_closure r x) cache)

/-- Reachability from a seed set through `parents` edges: the elements the
spec's traversal visits starting from the members of `s0`. -/
inductive InClosure (r : ConceptRegistry) (s0 : Finset Int) : Int → Prop
  | base {x : Int} : x ∈ s0 → InClosure r s0 x
  | step {p x : Int} : InClosure r s0 p → x ∈ parents_of r p → InClosure r s0 x

namespace Resolver

/-- Member concept of the generated registry model
(`generated_models/omop_semantic_registry.Concept`). -/
structure Concept where
  concept_id : Option Int
  label : Option String
deriving DecidableEq, Repr

/-- Tagged union of the `OmopSemanticObject` subclasses the resolver
dispatches over; `omopValueSet` is the variant `resolve` does not support. -/
inductive OmopSemanticObject where
  | omopConcept (name : String) (concept_id : Option Int) (label : Option String)
  | omopEnum (name : String) (enum_members : List Concept)
  | omopGroup (name : String) (parent_concepts : Option (List Concept))
  | omopValueSet (name : String) (members : List OmopSemanticObject)

/-- Model of the exceptions of `OmopSemanticResolver.resolve`: `ValueError`
for a concept without id, `TypeError` for an unsupported variant. -/
inductive ResolveError where
  | missingConceptId (name : String)
  | unsupportedVariant
deriving DecidableEq, Repr

/-- Model of `OmopSemanticResolver.resolve`: a concept yields its singleton
id (error when absent), an enum the ids of its members that carry one, a
group only its anchor (`parent_concepts`) ids, and any other variant a
`TypeError`. -/
def resolve : OmopSemanticObject → Except ResolveError (Finset Int)
  | .omopConcept name concept_id _ =>
    match concept_id with
    | none => .error (.missingConceptId name)
    | some i => .ok {i}
  | .omopEnum _ ms => .ok (ms.filterMap (fun c => c.concept_id)).toFinset
  | .omopGroup _ ps => .ok ((ps.getD []).filterMap (fun c => c.concept_id)).toFinset
  | .omopValueSet _ _ => .error .unsupportedVariant

end Resolver

namespace ValueSets

/-- Member concept of the named-sets generated model
(`generated_models/omop_named_sets.Concept`). -/
structure Concept where
  concept_id : Option Int
  label : Option String
deriving DecidableEq, Repr

/-- Generated `omop_named_sets.OmopGroup` (fields the runtime layer reads). -/
structure OmopGroup where
  name : Option String
  parent_concepts : Option (List Concept)
deriving DecidableEq, Repr

/-- Generated `omop_named_sets.OmopEnum` (fields the runtime layer reads). -/
structure OmopEnum where
  name : Option String
  enum_members : List Concept
deriving DecidableEq, Repr

/-- Generated `omop_named_sets.OmopConcept` (fields the runtime layer reads). -/
structure OmopConcept where
  name : Option String
  concept_id : Option Int
  label : Option String
deriving DecidableEq, Repr

/-- Python truthiness of an optional string (`None` and `""` are falsy). -/
def truthyStr : Option String → Bool
  | some s => s ≠ ""
  | none => false

/-- Python truthiness of an optional integer (`None` and `0` are falsy). -/
def truthyInt : Option Int → Bool
  | some i => i ≠ 0
  | none => false

/-- State of a `value_sets.RuntimeGroup`: the wrapped group, its display
name, and the label-to-id mapping over its truthy-labelled, truthy-id
anchors. -/
structure RuntimeGroup where
  _group : OmopGroup
  _name : String
  _by_label : List (String × Int)
deriving DecidableEq, Repr

/-- Model of `RuntimeGroup.__init__`. -/
def RuntimeGroup.init (group : OmopGroup) : RuntimeGroup :=
  { _group := group
    _name := if truthyStr group.name then group.name.getD "" else "[group]"
    _by_label := (group.parent_concepts.getD []).foldl
      (fun m c =>
        if truthyStr c.label && truthyInt c.concept_id then
          dinsert (c.label.getD "") (c.concept_id.getD 0) m
        else m) [] }

/-- Model of `RuntimeGroup.is_singleton`. -/
def RuntimeGroup.is_singleton (g : RuntimeGroup) : Bool :=
  g._by_label.length == 1

/-- Model of `RuntimeGroup.value`: the sole anchor id for a singleton group;
the `AttributeError` raised otherwise is modelled by `none`. -/
def RuntimeGroup.value (g : RuntimeGroup) : Option Int :=
  if g.is_singleton then g._by_label.head?.map Prod.snd else none

/-- State of a `value_sets.RuntimeEnum`. -/
structure RuntimeEnum where
  _enum : OmopEnum
  _name : String
  _by_label : List (String × Int)
deriving DecidableEq, Repr

/-- Model of `RuntimeEnum.__init__`. -/
def RuntimeEnum.init (enum : OmopEnum) : RuntimeEnum :=
  { _enum := enum
    _name := if truthyStr enum.name then enum.name.getD "" else "[enum]"
    _by_label := enum.enum_members.foldl
      (fun m mem =>
        if truthyInt mem.concept_id && truthyStr mem.label then
          dinsert (mem.label.getD "") (mem.concept_id.getD 0) m
        else m) [] }

/-- Generated `omop_named_sets.CDMSemanticUnits` (fields the runtime reads). -/
structure CDMSemanticUnits where
  name : Option String
  named_enumerators : Option (List OmopEnum)
  named_concepts : Option (List OmopConcept)
  named_groups : Option (List OmopGroup)
deriving DecidableEq, Repr

/-- State of a `value_sets.RuntimeSemanticUnit`: the name-keyed enum, group
and concept dicts built in `__init__`. -/
structure RuntimeSemanticUnit where
  _unit : CDMSemanticUnits
  enums : List (String × RuntimeEnum)
  groups : List (String × RuntimeGroup)
  concepts : List (String × OmopConcept)
deriving DecidableEq, Repr

/-- Model of `RuntimeSemanticUnit.__init__`. -/
def RuntimeSemanticUnit.init (unit : CDMSemanticUnits) : RuntimeSemanticUnit :=
  { _unit := unit
    enums := (unit.named_enumerators.getD []).foldl
      (fun m e => if truthyStr e.name then dinsert (e.name.getD "") (RuntimeEnum.init e) m else m) []
    groups := (unit.named_groups.getD []).foldl
      (fun m g => if truthyStr g.name then dinsert (g.name.getD "") (RuntimeGroup.init g) m else m) []
    concepts := (unit.named_concepts.getD []).foldl
      (fun m c => if truthyStr c.name then dinsert (c.name.getD "") c m else m) [] }

/-- Result of a dynamic attribute lookup on a semantic unit: an enum
namespace, a group namespace, a raw concept, or a bare identifier. -/
inductive AttrValue where
  | enumNS (e : RuntimeEnum)
  | groupNS (g : RuntimeGroup)
  | conceptV (c : OmopConcept)
  | idV (i : Int)
deriving DecidableEq, Repr

/-- Exceptions a dynamic attribute lookup can raise: `AttributeError` (caught
by the unit's flattened fallback) or `KeyError` (not caught). -/
inductive AttrErr where
  | attributeError (name : String)
  | keyError (name : String)
deriving DecidableEq, Repr

/-- Model of `_RuntimeLabelledConcepts.__getattr__`: underscore names raise
`AttributeError`, otherwise the label is looked up in `_by_label`, where a
missing key raises `KeyError`. -/
def labelledAttr (by_label : List (String × Int)) (label : String) : Except AttrErr Int :=
  if startsWithUnderscore label then .error (.attributeError label)
  else
    match dlookup label by_label with
    | some i => .ok i
    | none => .error (.keyError label)

/-- The flattened-lookup loop at the end of `RuntimeSemanticUnit.__getattr__`:
try each labelled container in order, passing on `AttributeError` only. -/
def flattenAttr (containers : List (List (String × Int))) (name : String) : Except AttrErr AttrValue :=
  match containers with
  | [] => .error (.attributeError name)
  | m :: rest =>
    match labelledAttr m name with
    | .ok i => .ok (.idV i)
    | .error (.attributeError _) => flattenAttr rest name
    | .error e => .error e

/-- Model of `RuntimeSemanticUnit.__getattr__`: named enums first, then named
groups (a singleton group collapses to its sole anchor id), then named
concepts, then the flattened label lookup. -/
def RuntimeSemanticUnit.getattr (u : RuntimeSemanticUnit) (name : String) : Except AttrErr AttrValue :=
  match dlookup name u.enums with
  | some e => .ok (.enumNS e)
  | none =>
    match dlookup name u.groups with
    | some g =>
      if g.is_singleton then
        match g.value with
        | some i => .ok (.idV i)
        | none => .error (.attributeError name)
      else .ok (.groupNS g)
    | none =>
      match dlookup name u.concepts with
      | some c => .ok (.conceptV c)
      | none =>
        flattenAttr (u.enums.map (fun p => p.2._by_label) ++ u.groups.map (fun p => p.2._by_label)) name

end ValueSets

/-- Well-formedness of an association-list dict: keys are duplicate-free and
each key is determined by its value through `keyf` (as in the registry's
dicts, which are keyed by `concept_id` resp. lowercase name). -/
def NodupKV {K V : Type} (keyf : V → K) (m : List (K × V)) : Prop :=
  (m.map Prod.fst).Nodup ∧ ∀ p ∈ m, p.1 = keyf p.2

/-! Lemmas about the dict and set models. -/

theorem dlookup_append {K V : Type} [DecidableEq K] (k : K) (l1 l2 : List (K × V)) :
    dlookup k (l1 ++ l2) =
      match dlookup k l1 with
      | some v => some v
      | none => dlookup k l2 := by
  induction l1 with
  | nil => simp [dlookup]
  | cons a l1 ih =>
    by_cases h : a.1 = k
    · simp [dlookup, h]
    · simp [dlookup, h, ih]

theorem dlookup_filter_ne {K V : Type} [DecidableEq K] (k k' : K) (m : List (K × V)) :
    dlookup k (m.filter (fun p => p.1 ≠ k')) =
      if k' = k then none else dlookup k m := by
  induction m with
  | nil => simp [dlookup]
  | cons a m ih =>
    by_cases hk : a.1 = k'
    · have h1 : (a :: m).filter (fun p => p.1 ≠ k') = m.filter (fun p => p.1 ≠ k') := by
        simp [List.filter_cons, hk]
      rw [h1, ih]
      by_cases he : k' = k
      · simp [he]
      · have ha : a.1 ≠ k := by rw [hk]; exact he
        simp [dlookup, ha, he]
    · have h1 : (a :: m).filter (fun p => p.1 ≠ k') = a :: m.filter (fun p => p.1 ≠ k') := by
        simp [List.filter_cons, hk]
      rw [h1]
      by_cases ha : a.1 = k
      · have he : k' ≠ k := fun h => hk (ha.trans h.symm)
        simp [dlookup, ha, he]
      · have h2 : dlookup k (a :: m.filter (fun p => p.1 ≠ k')) = dlookup k (m.filter (fun p => p.1 ≠ k')) := by
          simp [dlookup, ha]
        have h3 : dlookup k (a :: m) = dlookup k m := by simp [dlookup, ha]
        rw [h2, h3, ih]

theorem dlookup_dinsert {K V : Type} [DecidableEq K] (k k' : K) (v : V) (m : List (K × V)) :
    dlookup k (dinsert k' v m) = if k' = k then some v else dlookup k m := by
  rw [dinsert, dlookup_append, dlookup_filter_ne]
  by_cases he : k' = k
  · simp [dlookup, he]
  · simp only [if_neg he]
    cases dlookup k m <;> simp [dlookup, he]

theorem mem_sinsert {α : Type} [DecidableEq α] (x y : α) (s : List α) :
    x ∈ sinsert y s ↔ x = y ∨ x ∈ s := by
  by_cases h : y ∈ s
  · simp only [sinsert, if_pos h]
    constructor
    · exact fun hx => Or.inr hx
    · rintro (rfl | hx)
      · exact h
      · exact hx
  · simp [sinsert, if_neg h, or_comm]

theorem dlookup_eq_none_iff {K V : Type} [DecidableEq K] (k : K) (m : List (K × V)) :
    dlookup k m = none ↔ k ∉ m.map Prod.fst := by
  induction m with
  | nil => simp [dlookup]
  | cons a m ih =>
    by_cases h : a.1 = k
    · simp [dlookup, h]
    · simp [dlookup, h, ih, Ne.symm h]

theorem dlookup_of_mem {K V : Type} [DecidableEq K] {k : K} {v : V} {m : List (K × V)}
    (hnd : (m.map Prod.fst).Nodup) (hm : (k, v) ∈ m) : dlookup k m = some v := by
  induction m with
  | nil => simp at hm
  | cons a m ih =>
    rcases List.mem_cons.mp hm with h | hm
    · cases h
      simp [dlookup]
    · have hk : a.1 ≠ k := by
        intro h
        have hni : a.1 ∉ m.map Prod.fst := (List.nodup_cons.mp hnd).1
        exact hni (h ▸ List.mem_map_of_mem Prod.fst hm)
      simp [dlookup, hk, ih (List.nodup_cons.mp hnd).2 hm]

theorem foldl_proj {σ α β : Type} (f : σ → α → σ) (g : β → α → β) (proj : σ → β)
    (h : ∀ st a, proj (f st a) = g (proj st) a) :
    ∀ (l : List α) (st : σ), proj (l.foldl f st) = l.foldl g (proj st) := by
  intro l
  induction l with
  | nil => intro st; rfl
  | cons a l ih =>
    intro st
    rw [List.foldl_cons, List.foldl_cons, ih, h]

theorem foldl_preserve {σ α β : Type} (f : σ → α → σ) (proj : σ → β)
    (h : ∀ st a, proj (f st a) = proj st) :
    ∀ (l : List α) (st : σ), proj (l.foldl f st) = proj st := by
  intro l
  induction l with
  | nil => intro st; rfl
  | cons a l ih =>
    intro st
    rw [List.foldl_cons, ih, h]

theorem foldl_dinsert_lookup {K V W : Type} [DecidableEq K] (keyf : V → K) (valf : V → W)
    (vs : List V) (m0 : List (K × W)) (i : K) :
    dlookup i (vs.foldl (fun m v => dinsert (keyf v) (valf v) m) m0)
      = match vs.reverse.find? (fun v => decide (keyf v = i)) with
        | some v => some (valf v)
        | none => dlookup i m0 := by
  induction vs generalizing m0 with
  | nil => simp
  | cons v vs ih =>
    rw [List.foldl_cons, ih, List.reverse_cons, List.find?_append]
    cases hf : vs.reverse.find? (fun v => decide (keyf v = i)) with
    | some w => simp
    | none =>
      simp only [Option.none_orElse]
      rw [dlookup_dinsert]
      by_cases hk : keyf v = i
      · simp [List.find?, hk]
      · simp [List.find?, hk]

theorem foldl_dupdate_sinsert_mem {K α V : Type} [DecidableEq K] [DecidableEq α]
    (keyf : V → K) (elemf : V → α) (vs : List V) (m0 : List (K × List α)) (k : K) (x : α) :
    (x ∈ (dlookup k (vs.foldl
        (fun m v => dupdate (keyf v) (fun o => sinsert (elemf v) (o.getD [])) m) m0)).getD []
      ↔ (∃ v ∈ vs, keyf v = k ∧ elemf v = x) ∨ x ∈ (dlookup k m0).getD []) := by
  induction vs generalizing m0 with
  | nil => simp
  | cons v vs ih =>
    rw [List.foldl_cons, ih]
    rw [dupdate, dlookup_dinsert]
    by_cases hk : keyf v = k
    · rw [if_pos hk, hk]
      simp only [Option.getD_some, mem_sinsert, List.mem_cons]
      constructor
      · rintro (⟨w, hw, hwk, hwx⟩ | hx | hold)
        · exact Or.inl ⟨w, Or.inr hw, hwk, hwx⟩
        · exact Or.inl ⟨v, Or.inl rfl, hk, hx.symm⟩
        · exact Or.inr hold
      · rintro (⟨w, hw | hw, hwk, hwx⟩ | hold)
        · cases hw
          exact Or.inr (Or.inl hwx.symm)
        · exact Or.inl ⟨w, hw, hwk, hwx⟩
        · exact Or.inr (Or.inr hold)
    · rw [if_neg hk]
      constructor
      · rintro (⟨w, hw, hwk, hwx⟩ | hold)
        · exact Or.inl ⟨w, List.mem_cons_of_mem v hw, hwk, hwx⟩
        · exact Or.inr hold
      · rintro (⟨w, hw, hwk, hwx⟩ | hold)
        · rcases List.mem_cons.mp hw with h | h
          · cases h
            exact absurd hwk hk
          · exact Or.inl ⟨w, h, hwk, hwx⟩
        · exact Or.inr hold

theorem nodupKV_dinsert {K V : Type} [DecidableEq K] {keyf : V → K} {m : List (K × V)}
    (h : NodupKV keyf m) (v : V) : NodupKV keyf (dinsert (keyf v) v m) := by
  obtain ⟨hnd, hkv⟩ := h
  constructor
  · rw [dinsert, List.map_append]
    have hsub : ((m.filter (fun p => p.1 ≠ keyf v)).map Prod.fst).Sublist (m.map Prod.fst) :=
      (List.filter_sublist m).map Prod.fst
    refine List.Nodup.append (hsub.nodup hnd) (List.nodup_singleton _) ?_
    intro a ha hb
    simp only [List.map_cons, List.map_nil, List.mem_singleton] at hb
    rcases List.mem_map.mp ha with ⟨p, hp, hpa⟩
    have := List.of_mem_filter hp
    simp only [decide_eq_true_eq] at this
    exact this (hpa.trans hb)
  · intro p hp
    rcases List.mem_append.mp hp with h1 | h1
    · exact hkv p (List.mem_of_mem_filter h1)
    · simp only [List.mem_singleton] at h1
      cases h1
      rfl

theorem nodupKV_foldl_dinsert {K V : Type} [DecidableEq K] (keyf : V → K)
    (vs : List V) (m0 : List (K × V)) (h0 : NodupKV keyf m0) :
    NodupKV keyf (vs.foldl (fun m v => dinsert (keyf v) v m) m0) := by
  induction vs generalizing m0 with
  | nil => exact h0
  | cons v vs ih =>
    rw [List.foldl_cons]
    exact ih _ (nodupKV_dinsert h0 v)

theorem values_reverse_find {K V : Type} [DecidableEq K] (keyf : V → K) (m : List (K × V))
    (i : K) (h : NodupKV keyf m) :
    (m.map Prod.snd).reverse.find? (fun v => decide (keyf v = i)) = dlookup i m := by
  induction m with
  | nil => rfl
  | cons a m ih =>
    obtain ⟨hnd, hkv⟩ := h
    have htl : NodupKV keyf m := ⟨(List.nodup_cons.mp hnd).2, fun p hp => hkv p (List.mem_cons_of_mem a hp)⟩
    rw [List.map_cons, List.reverse_cons, List.find?_append, ih htl]
    have hka : a.1 = keyf a.2 := hkv a (List.mem_cons_self a m)
    by_cases hk : a.1 = i
    · have hnone : dlookup i m = none := by
        rw [dlookup_eq_none_iff]
        intro hmem
        exact (List.nodup_cons.mp hnd).1 (hk ▸ hmem)
      rw [hnone]
      have : decide (keyf a.2 = i) = true := by
        rw [← hka, hk]
        simp
      simp [dlookup, List.find?, this, hk]
    · have : decide (keyf a.2 = i) = false := by
        rw [← hka]
        simpa using hk
      cases hd : dlookup i m with
      | some w => simp [dlookup, hk, hd]
      | none => simp [dlookup, List.find?, this, hk, hd]

/-! Projections of the constructor folds onto the individual registry dicts. -/

namespace ConceptRegistry

theorem conceptFold_concepts (cs : List ConceptRecord) (st : ConceptRegistry) :
    (cs.foldl conceptStep st)._concepts
      = cs.foldl (fun m c => dinsert c.concept_id c m) st._concepts :=
  foldl_proj conceptStep (fun m c => dinsert c.concept_id c m)
    (fun st => st._concepts) (fun _ _ => rfl) cs st

theorem conceptFold_by_role (cs : List ConceptRecord) (st : ConceptRegistry) :
    (cs.foldl conceptStep st)._by_role
      = cs.foldl (fun m c => dupdate c.role (fun o => sinsert c.concept_id (o.getD [])) m) st._by_role :=
  foldl_proj conceptStep (fun m c => dupdate c.role (fun o => sinsert c.concept_id (o.getD [])) m)
    (fun st => st._by_role) (fun _ _ => rfl) cs st

theorem conceptFold_by_label (cs : List ConceptRecord) (st : ConceptRegistry) :
    (cs.foldl conceptStep st)._by_label
      = cs.foldl (fun m c => dinsert (strLower c.label) c.concept_id m) st._by_label :=
  foldl_proj conceptStep (fun m c => dinsert (strLower c.label) c.concept_id m)
    (fun st => st._by_label) (fun _ _ => rfl) cs st

theorem conceptFold_groups (cs : List ConceptRecord) (st : ConceptRegistry) :
    (cs.foldl conceptStep st)._groups = st._groups :=
  foldl_preserve conceptStep (fun st => st._groups) (fun _ _ => rfl) cs st

theorem conceptFold_groups_by_member (cs : List ConceptRecord) (st : ConceptRegistry) :
    (cs.foldl conceptStep st)._groups_by_member = st._groups_by_member :=
  foldl_preserve conceptStep (fun st => st._groups_by_member) (fun _ _ => rfl) cs st

theorem conceptFold_schema (cs : List ConceptRecord) (st : ConceptRegistry) :
    (cs.foldl conceptStep st)._schema = st._schema :=
  foldl_preserve conceptStep (fun st => st._schema) (fun _ _ => rfl) cs st

theorem memberFold_groups (g : ConceptGroupRecord) (members : List Int) (st : ConceptRegistry) :
    (members.foldl (groupMemberStep g) st)._groups = st._groups :=
  foldl_preserve (groupMemberStep g) (fun st => st._groups) (fun _ _ => rfl) members st

theorem memberFold_concepts (g : ConceptGroupRecord) (members : List Int) (st : ConceptRegistry) :
    (members.foldl (groupMemberStep g) st)._concepts = st._concepts :=
  foldl_preserve (groupMemberStep g) (fun st => st._concepts) (fun _ _ => rfl) members st

theorem memberFold_by_role (g : ConceptGroupRecord) (members : List Int) (st : ConceptRegistry) :
    (members.foldl (groupMemberStep g) st)._by_role = st._by_role :=
  foldl_preserve (groupMemberStep g) (fun st => st._by_role) (fun _ _ => rfl) members st

theorem memberFold_by_label (g : ConceptGroupRecord) (members : List Int) (st : ConceptRegistry) :
    (members.foldl (groupMemberStep g) st)._by_label = st._by_label :=
  foldl_preserve (groupMemberStep g) (fun st => st._by_label) (fun _ _ => rfl) members st

theorem memberFold_schema (g : ConceptGroupRecord) (members : List Int) (st : ConceptRegistry) :
    (members.foldl (groupMemberStep g) st)._schema = st._schema :=
  foldl_preserve (groupMemberStep g) (fun st => st._schema) (fun _ _ => rfl) members st

theorem memberFold_groups_by_member (g : ConceptGroupRecord) (members : List Int) (st : ConceptRegistry) :
    (members.foldl (groupMemberStep g) st)._groups_by_member
      = members.foldl (fun mm cid => dupdate cid (fun o => sinsert g.name (o.getD [])) mm) st._groups_by_member :=
  foldl_proj (groupMemberStep g) (fun mm cid => dupdate cid (fun o => sinsert g.name (o.getD [])) mm)
    (fun st => st._groups_by_member) (fun _ _ => rfl) members st

theorem groupFold_concepts (gs : List ConceptGroupRecord) (st : ConceptRegistry) :
    (gs.foldl groupStep st)._concepts = st._concepts :=
  foldl_preserve groupStep (fun st => st._concepts)
    (fun st g => memberFold_concepts g g.members _) gs st

theorem groupFold_by_role (gs : List ConceptGroupRecord) (st : ConceptRegistry) :
    (gs.foldl groupStep st)._by_role = st._by_role :=
  foldl_preserve groupStep (fun st => st._by_role)
    (fun st g => memberFold_by_role g g.members _) gs st

theorem groupFold_by_label (gs : List ConceptGroupRecord) (st : ConceptRegistry) :
    (gs.foldl groupStep st)._by_label = st._by_label :=
  foldl_preserve groupStep (fun st => st._by_label)
    (fun st g => memberFold_by_label g g.members _) gs st

theorem groupFold_schema (gs : List ConceptGroupRecord) (st : ConceptRegistry) :
    (gs.foldl groupStep st)._schema = st._schema :=
  foldl_preserve groupStep (fun st => st._schema)
    (fun st g => memberFold_schema g g.members _) gs st

theorem groupFold_groups (gs : List ConceptGroupRecord) (st : ConceptRegistry) :
    (gs.foldl groupStep st)._groups
      = gs.foldl (fun m g => dinsert (strLower g.name) g m) st._groups :=
  foldl_proj groupStep (fun m g => dinsert (strLower g.name) g m) (fun st => st._groups)
    (fun st g => memberFold_groups g g.members _) gs st

/-! Characterizations of the constructed registry's queries in terms of the
raw input lists. -/

theorem get_init (cs : List ConceptRecord) (gs : List ConceptGroupRecord)
    (s : Option SchemaInfo) (i : Int) :
    get (init cs gs s) i = cs.reverse.find? (fun c => decide (c.concept_id = i)) := by
  rw [get, init, conceptFold_concepts, groupFold_concepts]
  have h := foldl_dinsert_lookup (fun c : ConceptRecord => c.concept_id) (fun c => c) cs [] i
  rw [h]
  cases cs.reverse.find? (fun c => decide (c.concept_id = i)) <;> rfl

theorem schema_init (cs : List ConceptRecord) (gs : List ConceptGroupRecord)
    (s : Option SchemaInfo) : (init cs gs s)._schema = s := by
  rw [init, conceptFold_schema, groupFold_schema]

theorem groups_lookup_init (cs : List ConceptRecord) (gs : List ConceptGroupRecord)
    (s : Option SchemaInfo) (n : String) :
    dlookup n (init cs gs s)._groups = gs.reverse.find? (fun g => decide (strLower g.name = n)) := by
  rw [init, conceptFold_groups, groupFold_groups]
  have h := foldl_dinsert_lookup (fun g : ConceptGroupRecord => strLower g.name) (fun g => g) gs [] n
  rw [h]
  cases gs.reverse.find? (fun g => decide (strLower g.name = n)) <;> rfl

theorem by_label_init (cs : List ConceptRecord) (gs : List ConceptGroupRecord)
    (s : Option SchemaInfo) (l : String) :
    dlookup l (init cs gs s)._by_label
      = (cs.reverse.find? (fun c => decide (strLower c.label = l))).map (fun c => c.concept_id) := by
  rw [init, conceptFold_by_label, groupFold_by_label]
  have h := foldl_dinsert_lookup (fun c : ConceptRecord => strLower c.label)
    (fun c => c.concept_id) cs [] l
  rw [h]
  cases cs.reverse.find? (fun c => decide (strLower c.label = l)) <;> rfl

theorem by_role_init_mem (cs : List ConceptRecord) (gs : List ConceptGroupRecord)
    (s : Option SchemaInfo) (ρ : String) (i : Int) :
    i ∈ by_role (init cs gs s) ρ ↔ ∃ c ∈ cs, c.role = ρ ∧ c.concept_id = i := by
  rw [by_role, init, conceptFold_by_role, groupFold_by_role]
  have h := foldl_dupdate_sinsert_mem (fun c : ConceptRecord => c.role)
    (fun c => c.concept_id) cs [] ρ i
  rw [h]
  simp [dlookup]

theorem groups_by_member_init_mem (cs : List ConceptRecord) (gs : List ConceptGroupRecord)
    (s : Option SchemaInfo) (m : Int) (name : String) :
    (name ∈ (dlookup m (init cs gs s)._groups_by_member).getD []
      ↔ ∃ g ∈ gs, m ∈ g.members ∧ g.name = name) := by
  rw [init, conceptFold_groups_by_member]
  have main : ∀ (gs : List ConceptGroupRecord) (st : ConceptRegistry),
      (name ∈ (dlookup m (gs.foldl groupStep st)._groups_by_member).getD []
        ↔ (∃ g ∈ gs, m ∈ g.members ∧ g.name = name)
            ∨ name ∈ (dlookup m st._groups_by_member).getD []) := by
    intro gs
    induction gs with
    | nil => intro st; simp
    | cons g gs ih =>
      intro st
      rw [List.foldl_cons, ih]
      rw [groupStep, memberFold_groups_by_member]
      have h := foldl_dupdate_sinsert_mem (fun cid : Int => cid) (fun _ => g.name)
        g.members st._groups_by_member m name
      rw [h]
      constructor
      · rintro (hgs | ⟨cid, hcid, rfl, hname⟩ | hold)
        · rcases hgs with ⟨g', hg', hmem, hn⟩
          exact Or.inl ⟨g', List.mem_cons_of_mem g hg', hmem, hn⟩
        · exact Or.inl ⟨g, List.mem_cons_self g gs, hcid, hname⟩
        · exact Or.inr hold
      · rintro (⟨g', hg', hmem, hn⟩ | hold)
        · rcases List.mem_cons.mp hg' with h1 | h1
          · cases h1
            exact Or.inr (Or.inl ⟨m, hmem, rfl, hn⟩)
          · exact Or.inl ⟨g', h1, hmem, hn⟩
        · exact Or.inr (Or.inr hold)
  rw [main gs _]
  simp [dlookup]

theorem init_concepts_nodupKV (cs : List ConceptRecord) (gs : List ConceptGroupRecord)
    (s : Option SchemaInfo) :
    NodupKV (fun c : ConceptRecord => c.concept_id) (init cs gs s)._concepts := by
  rw [init, conceptFold_concepts, groupFold_concepts]
  exact nodupKV_foldl_dinsert _ cs [] ⟨List.nodup_nil, by simp⟩

theorem init_groups_nodupKV (cs : List ConceptRecord) (gs : List ConceptGroupRecord)
    (s : Option SchemaInfo) :
    NodupKV (fun g : ConceptGroupRecord => strLower g.name) (init cs gs s)._groups := by
  rw [init, conceptFold_groups, groupFold_groups]
  exact nodupKV_foldl_dinsert _ gs [] ⟨List.nodup_nil, by simp⟩

end ConceptRegistry

/-! Lemmas about `validate`. -/

theorem firstErr_ok_iff {α : Type} (l : List α) (f : α → Option ValidationError) :
    firstErr l f = .ok () ↔ ∀ a ∈ l, f a = none := by
  induction l with
  | nil => simp [firstErr]
  | cons a l ih =>
    cases hf : f a with
    | some e => simp [firstErr, hf]
    | none => simp [firstErr, hf, ih]

theorem validate_parents_only (r : ConceptRegistry) (sr sgm ssc : Bool)
    (hs : r._schema = none) (hg : r._groups = []) :
    r.validate sr true sgm ssc
      = firstErr (r._concepts.map Prod.snd)
          (fun c => (c.parents.find? (fun pid => !(r.has pid))).map
            (fun pid => ValidationError.missingParent c.concept_id pid)) := by
  rw [ConceptRegistry.validate, hs, hg]
  cases sgm <;>
    cases hpar : firstErr (r._concepts.map Prod.snd)
        (fun c => (c.parents.find? (fun pid => !(r.has pid))).map
          (fun pid => ValidationError.missingParent c.concept_id pid)) <;>
      simp [hpar, Bind.bind, Except.bind, pure, Except.pure, firstErr]

theorem validate_strict_parents_iff (r : ConceptRegistry) (sr sgm ssc : Bool)
    (hs : r._schema = none) (hg : r._groups = []) :
    (r.validate sr true sgm ssc = .ok ()
      ↔ ∀ p ∈ r._concepts, ∀ pid ∈ p.2.parents, r.has pid = true) := by
  rw [validate_parents_only r sr sgm ssc hs hg, firstErr_ok_iff]
  constructor
  · intro h p hp pid hpid
    have h2 := h p.2 (List.mem_map_of_mem Prod.snd hp)
    rw [Option.map_eq_none'] at h2
    have hfind := List.find?_eq_none.mp h2 pid hpid
    simpa using hfind
  · intro h c hc
    rcases List.mem_map.mp hc with ⟨p, hp, rfl⟩
    rw [Option.map_eq_none', List.find?_eq_none]
    intro pid hpid
    simp [h p hp pid hpid]

/-! Lemmas for the ancestor closure (spec-modelled `ancestors_of`). -/

theorem dlookup_mem {K V : Type} [DecidableEq K] {k : K} {v : V} {m : List (K × V)}
    (h : dlookup k m = some v) : (k, v) ∈ m := by
  induction m with
  | nil => simp [dlookup] at h
  | cons a m ih =>
    by_cases hk : a.1 = k
    · simp only [dlookup, if_pos hk] at h
      cases h
      have he : (k, a.2) = a := by rw [← hk]
      rw [he]
      exact List.mem_cons_self a m
    · simp only [dlookup, if_neg hk] at h
      exact List.mem_cons_of_mem a (ih h)

theorem subset_foldr_insert (ps : List Int) (acc : Finset Int) : acc ⊆ ps.foldr insert acc := by
  induction ps with
  | nil => exact Finset.Subset.refl acc
  | cons q ps ih => exact ih.trans (Finset.subset_insert q _)

theorem mem_foldr_insert {q : Int} {ps : List Int} (acc : Finset Int) (h : q ∈ ps) :
    q ∈ ps.foldr insert acc := by
  induction ps with
  | nil => simp at h
  | cons a ps ih =>
    rcases List.mem_cons.mp h with h1 | h1
    · cases h1
      exact Finset.mem_insert_self q _
    · exact Finset.mem_insert_of_mem (ih h1)

theorem subset_idStep (p : Int × ConceptRecord) (acc : Finset Int) : acc ⊆ idStep p acc :=
  (subset_foldr_insert p.2.parents acc).trans (Finset.subset_insert p.1 _)

theorem subset_foldr_idStep (l : List (Int × ConceptRecord)) (acc : Finset Int) :
    acc ⊆ l.foldr idStep acc := by
  induction l with
  | nil => exact Finset.Subset.refl acc
  | cons p l ih => exact ih.trans (subset_idStep p _)

theorem entry_subset_idUniverse {r : ConceptRegistry} {p : Int × ConceptRecord}
    (hp : p ∈ r._concepts) : ∀ q ∈ p.2.parents, q ∈ idUniverse r := by
  have main : ∀ (l : List (Int × ConceptRecord)) (acc : Finset Int), p ∈ l →
      ∀ q ∈ p.2.parents, q ∈ l.foldr idStep acc := by
    intro l
    induction l with
    | nil => intro acc h; simp at h
    | cons a l ih =>
      intro acc h q hq
      rcases List.mem_cons.mp h with h1 | h1
      · cases h1
        exact Finset.mem_insert_of_mem (mem_foldr_insert _ hq)
      · exact subset_idStep a _ (ih _ h1 q hq)
  exact main r._concepts ∅ hp

theorem parents_subset_idUniverse (r : ConceptRegistry) (p : Int) :
    (parents_of r p).toFinset ⊆ idUniverse r := by
  intro q hq
  rw [List.mem_toFinset] at hq
  rw [parents_of] at hq
  cases hget : r.get p with
  | none => rw [hget] at hq; simp at hq
  | some c =>
    rw [hget] at hq
    exact entry_subset_idUniverse (dlookup_mem hget) q hq

theorem ancStep_extensive (r : ConceptRegistry) (s : Finset Int) : s ⊆ ancStep r s :=
  Finset.subset_union_left

theorem ancStep_subset_univ (r : ConceptRegistry) {s : Finset Int} (h : s ⊆ idUniverse r) :
    ancStep r s ⊆ idUniverse r := by
  apply Finset.union_subset h
  rw [Finset.biUnion_subset]
  intro p _
  exact parents_subset_idUniverse r p

theorem ancIter_comm (r : ConceptRegistry) (n : Nat) (s : Finset Int) :
    ancIter r n (ancStep r s) = ancStep r (ancIter r n s) := by
  induction n generalizing s with
  | zero => rfl
  | succ n ih =>
    show ancIter r n (ancStep r (ancStep r s)) = ancStep r (ancIter r n (ancStep r s))
    rw [ih]

theorem ancIter_extensive (r : ConceptRegistry) (n : Nat) (s : Finset Int) :
    s ⊆ ancIter r n s := by
  induction n generalizing s with
  | zero => exact Finset.Subset.refl s
  | succ n ih => exact (ancStep_extensive r s).trans (ih (ancStep r s))

theorem ancIter_subset_univ (r : ConceptRegistry) (n : Nat) {s : Finset Int}
    (h : s ⊆ idUniverse r) : ancIter r n s ⊆ idUniverse r := by
  induction n generalizing s with
  | zero => exact h
  | succ n ih => exact ih (ancStep_subset_univ r h)

theorem ancIter_of_fixed (r : ConceptRegistry) (n : Nat) {s : Finset Int}
    (h : ancStep r s = s) : ancIter r n s = s := by
  induction n with
  | zero => rfl
  | succ n ih =>
    show ancIter r n (ancStep r s) = s
    rw [h, ih]

theorem ancIter_add (r : ConceptRegistry) (a b : Nat) (s : Finset Int) :
    ancIter r (a + b) s = ancIter r a (ancIter r b s) := by
  induction b generalizing s with
  | zero => rfl
  | succ b ih =>
    show ancIter r (a + b + 1) s = ancIter r a (ancIter r b (ancStep r s))
    show ancIter r (a + b) (ancStep r s) = ancIter r a (ancIter r b (ancStep r s))
    rw [ih]

theorem ancIter_card_growth (r : ConceptRegistry) :
    ∀ (n : Nat) (s : Finset Int),
      (∀ m < n, ancStep r (ancIter r m s) ≠ ancIter r m s) →
      s.card + n ≤ (ancIter r n s).card := by
  intro n
  induction n with
  | zero => intro s _; simp [ancIter]
  | succ n ih =>
    intro s h
    have h1 := ih s (fun m hm => h m (Nat.lt_succ_of_lt hm))
    have hne : ancIter r n s ≠ ancStep r (ancIter r n s) :=
      fun he => h n (Nat.lt_succ_self n) he.symm
    have hss : ancIter r n s ⊂ ancStep r (ancIter r n s) :=
      Finset.ssubset_iff_subset_ne.mpr ⟨ancStep_extensive r _, hne⟩
    have hcard := Finset.card_lt_card hss
    have heq : ancIter r (n + 1) s = ancStep r (ancIter r n s) := by
      show ancIter r n (ancStep r s) = ancStep r (ancIter r n s)
      exact ancIter_comm r n s
    rw [heq]
    omega

theorem ancStep_closure_fixed (r : ConceptRegistry) (x : Int) :
    ancStep r (ancestors_closure r x) = ancestors_closure r x := by
  set N := (idUniverse r).card with hN
  set s0 := (parents_of r x).toFinset with hs0
  have hsub : s0 ⊆ idUniverse r := parents_subset_idUniverse r x
  have hfix : ∃ m, m ≤ N ∧ ancStep r (ancIter r m s0) = ancIter r m s0 := by
    by_contra hno
    push_neg at hno
    have hgrow := ancIter_card_growth r (N + 1) s0
      (fun m hm => hno m (Nat.lt_succ_iff.mp hm))
    have hle : (ancIter r (N + 1) s0).card ≤ N :=
      Finset.card_le_card (ancIter_subset_univ r (N + 1) hsub)
    omega
  rcases hfix with ⟨m, hm, hfix⟩
  have hsplit : ancestors_closure r x = ancIter r m s0 := by
    rw [ancestors_closure, ← hs0, ← hN]
    have : N + 1 = (N + 1 - m) + m := by omega
    rw [this, ancIter_add, ancIter_of_fixed r _ hfix]
  rw [hsplit, hfix]

theorem inClosure_trans_seed {r : ConceptRegistry} {s0 t : Finset Int}
    (ht : ∀ z ∈ t, InClosure r s0 z) {y : Int} (hy : InClosure r t y) : InClosure r s0 y := by
  induction hy with
  | base h => exact ht _ h
  | step hp hx ih => exact InClosure.step ih hx

theorem mem_ancIter_inClosure (r : ConceptRegistry) :
    ∀ (n : Nat) (s : Finset Int) (y : Int), y ∈ ancIter r n s → InClosure r s y := by
  intro n
  induction n with
  | zero => intro s y hy; exact InClosure.base hy
  | succ n ih =>
    intro s y hy
    have h1 : InClosure r (ancStep r s) y := ih (ancStep r s) y hy
    refine inClosure_trans_seed ?_ h1
    intro z hz
    rcases Finset.mem_union.mp hz with h | h
    · exact InClosure.base h
    · rcases Finset.mem_biUnion.mp h with ⟨p, hp, hzp⟩
      exact InClosure.step (InClosure.base hp) (List.mem_toFinset.mp hzp)

theorem inClosure_mem_closure (r : ConceptRegistry) (x : Int) {y : Int}
    (h : InClosure r (parents_of r x).toFinset y) : y ∈ ancestors_closure r x := by
  induction h with
  | base h => exact ancIter_extensive r _ _ h
  | step hp hedge ih =>
    have hstep : _ ∈ ancStep r (ancestors_closure r x) :=
      Finset.mem_union_right _ (Finset.mem_biUnion.mpr ⟨_, ih, List.mem_toFinset.mpr hedge⟩)
    rwa [ancStep_closure_fixed] at hstep

theorem mem_closure_iff (r : ConceptRegistry) (x y : Int) :
    y ∈ ancestors_closure r x ↔ InClosure r (parents_of r x).toFinset y :=
  ⟨mem_ancIter_inClosure r _ _ y, inClosure_mem_closure r x⟩

theorem inClosure_parents_iff (r : ConceptRegistry) (x y : Int) :
    (InClosure r (parents_of r x).toFinset y
      ↔ y ∈ parents_of r x ∨ ∃ p ∈ parents_of r x, InClosure r (parents_of r p).toFinset y) := by
  constructor
  · intro h
    induction h with
    | base h => exact Or.inl (List.mem_toFinset.mp h)
    | step hp hedge ih =>
      rcases ih with hmem | ⟨p, hpx, hrel⟩
      · exact Or.inr ⟨_, hmem, InClosure.base (List.mem_toFinset.mpr hedge)⟩
      · exact Or.inr ⟨p, hpx, InClosure.step hrel hedge⟩
  · rintro (h | ⟨p, hpx, hrel⟩)
    · exact InClosure.base (List.mem_toFinset.mpr h)
    · refine inClosure_trans_seed ?_ hrel
      intro z hz
      exact InClosure.step (InClosure.base (List.mem_toFinset.mpr hpx)) (List.mem_toFinset.mp hz)

theorem closure_fixed_point (r : ConceptRegistry) (x : Int) :
    ancestors_closure r x
      = (parents_of r x).toFinset
          ∪ (parents_of r x).toFinset.biUnion (fun p => ancestors_closure r p) := by
  ext y
  rw [Finset.mem_union, Finset.mem_biUnion, mem_closure_iff, inClosure_parents_iff]
  constructor
  · rintro (h | ⟨p, hp, hrel⟩)
    · exact Or.inl (List.mem_toFinset.mpr h)
    · exact Or.inr ⟨p, List.mem_toFinset.mpr hp, (mem_closure_iff r p y).mpr hrel⟩
  · rintro (h | ⟨p, hp, hmem⟩)
    · exact Or.inl (List.mem_toFinset.mp h)
    · exact Or.inr ⟨p, List.mem_toFinset.mp hp, (mem_closure_iff r p y).mp hmem⟩

/-! Lemmas about `merge`. -/

namespace ConceptRegistry

theorem mergeStepKV_ok_eq {K V : Type} [DecidableEq K] [DecidableEq V]
    (s : String) (conflict : K → V → V → MergeError) (m : List (K × V)) (p : K × V) :
    mergeStepKV s conflict (.ok m) p
      = match dlookup p.1 m with
        | none => .ok (dinsert p.1 p.2 m)
        | some v1 =>
          if v1 ≠ p.2 then
            if s = "prefer_other" then .ok (dinsert p.1 p.2 m)
            else if s = "error" then .error (conflict p.1 v1 p.2)
            else .ok m
          else .ok m := rfl

theorem mergeFold_error {K V : Type} [DecidableEq K] [DecidableEq V]
    (s : String) (conflict : K → V → V → MergeError) (l : List (K × V)) (e : MergeError) :
    l.foldl (mergeStepKV s conflict) (.error e) = .error e := by
  induction l with
  | nil => rfl
  | cons p l ih => exact ih

theorem mergeStep_none {K V : Type} [DecidableEq K] [DecidableEq V]
    (s : String) (conflict : K → V → V → MergeError) {m : List (K × V)} {p : K × V}
    (hl : dlookup p.1 m = none) :
    mergeStepKV s conflict (.ok m) p = .ok (dinsert p.1 p.2 m) := by
  rw [mergeStepKV_ok_eq, hl]

theorem mergeStep_eq_val {K V : Type} [DecidableEq K] [DecidableEq V]
    (s : String) (conflict : K → V → V → MergeError) {m : List (K × V)} {p : K × V} {v1 : V}
    (hl : dlookup p.1 m = some v1) (hv : v1 = p.2) :
    mergeStepKV s conflict (.ok m) p = .ok m := by
  rw [mergeStepKV_ok_eq, hl]
  simp [hv]

theorem mergeStep_conf_default {K V : Type} [DecidableEq K] [DecidableEq V]
    (s : String) (conflict : K → V → V → MergeError) {m : List (K × V)} {p : K × V} {v1 : V}
    (hl : dlookup p.1 m = some v1) (hv : v1 ≠ p.2)
    (ho : s ≠ "prefer_other") (he : s ≠ "error") :
    mergeStepKV s conflict (.ok m) p = .ok m := by
  rw [mergeStepKV_ok_eq, hl]
  simp [hv, ho, he]

theorem mergeStep_conf_other {K V : Type} [DecidableEq K] [DecidableEq V]
    (conflict : K → V → V → MergeError) {m : List (K × V)} {p : K × V} {v1 : V}
    (hl : dlookup p.1 m = some v1) (hv : v1 ≠ p.2) :
    mergeStepKV "prefer_other" conflict (.ok m) p = .ok (dinsert p.1 p.2 m) := by
  rw [mergeStepKV_ok_eq, hl]
  simp [hv]

theorem mergeStep_conf_error {K V : Type} [DecidableEq K] [DecidableEq V]
    (conflict : K → V → V → MergeError) {m : List (K × V)} {p : K × V} {v1 : V}
    (hl : dlookup p.1 m = some v1) (hv : v1 ≠ p.2) :
    mergeStepKV "error" conflict (.ok m) p = .error (conflict p.1 v1 p.2) := by
  rw [mergeStepKV_ok_eq, hl]
  simp [hv]

theorem mergeFold_ok {K V : Type} [DecidableEq K] [DecidableEq V]
    (s : String) (hs : s ≠ "error") (conflict : K → V → V → MergeError) :
    ∀ (l2 acc : List (K × V)),
      ∃ res, l2.foldl (mergeStepKV s conflict) (.ok acc) = .ok res := by
  intro l2
  induction l2 with
  | nil => intro acc; exact ⟨acc, rfl⟩
  | cons p l2 ih =>
    intro acc
    rw [List.foldl_cons]
    cases hl : dlookup p.1 acc with
    | none =>
      rw [mergeStep_none s conflict hl]
      exact ih (dinsert p.1 p.2 acc)
    | some v1 =>
      by_cases hv : v1 = p.2
      · rw [mergeStep_eq_val s conflict hl hv]
        exact ih acc
      · by_cases ho : s = "prefer_other"
        · cases ho
          rw [mergeStep_conf_other conflict hl hv]
          exact ih (dinsert p.1 p.2 acc)
        · rw [mergeStep_conf_default s conflict hl hv ho hs]
          exact ih acc

theorem mergeFold_prefer_self {K V : Type} [DecidableEq K] [DecidableEq V]
    (conflict : K → V → V → MergeError) :
    ∀ (l2 acc : List (K × V)),
      ∃ res, l2.foldl (mergeStepKV "prefer_self" conflict) (.ok acc) = .ok res
        ∧ ∀ i, dlookup i res
            = match dlookup i acc with
              | some v => some v
              | none => dlookup i l2 := by
  intro l2
  induction l2 with
  | nil =>
    intro acc
    refine ⟨acc, rfl, fun i => ?_⟩
    cases dlookup i acc <;> simp [dlookup]
  | cons p l2 ih =>
    intro acc
    rw [List.foldl_cons]
    cases hl : dlookup p.1 acc with
    | none =>
      rw [mergeStep_none "prefer_self" conflict hl]
      rcases ih (dinsert p.1 p.2 acc) with ⟨res, heq, hlook⟩
      refine ⟨res, heq, fun i => ?_⟩
      rw [hlook i, dlookup_dinsert]
      by_cases hpi : p.1 = i
      · cases hpi
        rw [hl, if_pos rfl]
        simp [dlookup]
      · rw [if_neg hpi]
        cases hacc : dlookup i acc with
        | some v => rfl
        | none => simp [dlookup, hpi]
    | some v1 =>
      have hstep : mergeStepKV "prefer_self" conflict (.ok acc) p = .ok acc := by
        by_cases hv : v1 = p.2
        · exact mergeStep_eq_val _ conflict hl hv
        · exact mergeStep_conf_default _ conflict hl hv (by simp) (by simp)
      rw [hstep]
      rcases ih acc with ⟨res, heq, hlook⟩
      refine ⟨res, heq, fun i => ?_⟩
      rw [hlook i]
      cases hacc : dlookup i acc with
      | some v => rfl
      | none =>
        have hpi : p.1 ≠ i := by
          intro h
          rw [h, hacc] at hl
          exact Option.noConfusion hl
        simp [dlookup, hpi]

theorem mergeFold_prefer_other {K V : Type} [DecidableEq K] [DecidableEq V]
    (conflict : K → V → V → MergeError) :
    ∀ (l2 acc : List (K × V)), (l2.map Prod.fst).Nodup →
      ∃ res, l2.foldl (mergeStepKV "prefer_other" conflict) (.ok acc) = .ok res
        ∧ ∀ i, dlookup i res
            = match dlookup i l2 with
              | some v => some v
              | none => dlookup i acc := by
  intro l2
  induction l2 with
  | nil =>
    intro acc _
    refine ⟨acc, rfl, fun i => ?_⟩
    simp [dlookup]
  | cons p l2 ih =>
    intro acc hnd
    have hpn : p.1 ∉ l2.map Prod.fst := (List.nodup_cons.mp hnd).1
    have hnd2 : (l2.map Prod.fst).Nodup := (List.nodup_cons.mp hnd).2
    rw [List.foldl_cons]
    have hstep : ∃ acc2, mergeStepKV "prefer_other" conflict (.ok acc) p = .ok acc2
        ∧ ∀ i, dlookup i acc2 = if p.1 = i then some p.2 else dlookup i acc := by
      cases hl : dlookup p.1 acc with
      | none =>
        exact ⟨dinsert p.1 p.2 acc, mergeStep_none _ conflict hl,
          fun i => dlookup_dinsert i p.1 p.2 acc⟩
      | some v1 =>
        by_cases hv : v1 = p.2
        · refine ⟨acc, mergeStep_eq_val _ conflict hl hv, fun i => ?_⟩
          by_cases hpi : p.1 = i
          · cases hpi
            rw [if_pos rfl, hl, hv]
          · rw [if_neg hpi]
        · exact ⟨dinsert p.1 p.2 acc, mergeStep_conf_other conflict hl hv,
            fun i => dlookup_dinsert i p.1 p.2 acc⟩
    rcases hstep with ⟨acc2, hs2, hlook2⟩
    rw [hs2]
    rcases ih acc2 hnd2 with ⟨res, heq, hlook⟩
    refine ⟨res, heq, fun i => ?_⟩
    rw [hlook i]
    by_cases hpi : p.1 = i
    · cases hpi
      have hl2 : dlookup p.1 l2 = none := (dlookup_eq_none_iff p.1 l2).mpr hpn
      rw [hl2]
      have h2 := hlook2 p.1
      rw [if_pos rfl] at h2
      rw [h2]
      simp [dlookup]
    · have hcons : dlookup i (p :: l2) = dlookup i l2 := by simp [dlookup, hpi]
      rw [hcons]
      cases hll : dlookup i l2 with
      | some v => rfl
      | none =>
        have h2 := hlook2 i
        rw [if_neg hpi] at h2
        rw [h2]

theorem mergeFold_error_conflict {K V : Type} [DecidableEq K] [DecidableEq V]
    (conflict : K → V → V → MergeError) :
    ∀ (l2 acc : List (K × V)), (l2.map Prod.fst).Nodup →
      (∃ k v1 v2, dlookup k acc = some v1 ∧ dlookup k l2 = some v2 ∧ v1 ≠ v2) →
      ∃ k v1 v2, l2.foldl (mergeStepKV "error" conflict) (.ok acc) = .error (conflict k v1 v2)
        ∧ dlookup k acc = some v1 ∧ dlookup k l2 = some v2 ∧ v1 ≠ v2 := by
  intro l2
  induction l2 with
  | nil =>
    intro acc _ hconf
    rcases hconf with ⟨k, v1, v2, _, hk2, _⟩
    simp [dlookup] at hk2
  | cons p l2 ih =>
    intro acc hnd hconf
    have hpn : p.1 ∉ l2.map Prod.fst := (List.nodup_cons.mp hnd).1
    have hnd2 : (l2.map Prod.fst).Nodup := (List.nodup_cons.mp hnd).2
    rcases hconf with ⟨k, v1, v2, hk1, hk2, hne⟩
    rw [List.foldl_cons]
    cases hl : dlookup p.1 acc with
    | some c1 =>
      by_cases hv : c1 = p.2
      · rw [mergeStep_eq_val _ conflict hl hv]
        have hkp : k ≠ p.1 := by
          intro h
          apply hne
          have hveq : v1 = p.2 := by
            rw [h, hl] at hk1
            cases hk1
            exact hv
          have hself : dlookup k (p :: l2) = some p.2 := by
            have hpk : p.1 = k := h.symm
            simp [dlookup, hpk]
          rw [hself] at hk2
          cases hk2
          exact hveq
        have hpk : p.1 ≠ k := fun h => hkp h.symm
        have hk2b : dlookup k l2 = some v2 := by
          have hcons : dlookup k (p :: l2) = dlookup k l2 := by
            simp [dlookup, hpk]
          rwa [hcons] at hk2
        rcases ih acc hnd2 ⟨k, v1, v2, hk1, hk2b, hne⟩ with ⟨k3, v13, v23, herr, h13, h23, hne3⟩
        refine ⟨k3, v13, v23, herr, h13, ?_, hne3⟩
        have hk3p : p.1 ≠ k3 := by
          intro h
          exact hpn (h ▸ List.mem_map_of_mem Prod.fst (dlookup_mem h23))
        simp [dlookup, hk3p, h23]
      · rw [mergeStep_conf_error conflict hl hv, mergeFold_error]
        refine ⟨p.1, c1, p.2, rfl, hl, ?_, hv⟩
        simp [dlookup]
    | none =>
      rw [mergeStep_none _ conflict hl]
      have hkp : k ≠ p.1 := by
        intro h
        rw [h, hl] at hk1
        exact Option.noConfusion hk1
      have hpk : p.1 ≠ k := fun h => hkp h.symm
      have hk2b : dlookup k l2 = some v2 := by
        have hcons : dlookup k (p :: l2) = dlookup k l2 := by
          simp [dlookup, hpk]
        rwa [hcons] at hk2
      have hk1b : dlookup k (dinsert p.1 p.2 acc) = some v1 := by
        rw [dlookup_dinsert, if_neg hpk, hk1]
      rcases ih (dinsert p.1 p.2 acc) hnd2 ⟨k, v1, v2, hk1b, hk2b, hne⟩ with
        ⟨k3, v13, v23, herr, h13, h23, hne3⟩
      have hk3p : p.1 ≠ k3 := by
        intro h
        exact hpn (h ▸ List.mem_map_of_mem Prod.fst (dlookup_mem h23))
      refine ⟨k3, v13, v23, herr, ?_, ?_, hne3⟩
      · rw [dlookup_dinsert, if_neg hk3p] at h13
        exact h13
      · simp [dlookup, hk3p, h23]

theorem mergeFold_error_ok {K V : Type} [DecidableEq K] [DecidableEq V]
    (conflict : K → V → V → MergeError) :
    ∀ (l2 acc : List (K × V)), (l2.map Prod.fst).Nodup →
      (∀ k v1 v2, dlookup k acc = some v1 → dlookup k l2 = some v2 → v1 = v2) →
      ∃ res, l2.foldl (mergeStepKV "error" conflict) (.ok acc) = .ok res := by
  intro l2
  induction l2 with
  | nil => intro acc _ _; exact ⟨acc, rfl⟩
  | cons p l2 ih =>
    intro acc hnd hcomp
    have hpn : p.1 ∉ l2.map Prod.fst := (List.nodup_cons.mp hnd).1
    have hnd2 : (l2.map Prod.fst).Nodup := (List.nodup_cons.mp hnd).2
    rw [List.foldl_cons]
    cases hl : dlookup p.1 acc with
    | some c1 =>
      have hc : c1 = p.2 := by
        refine hcomp p.1 c1 p.2 hl ?_
        simp [dlookup]
      rw [mergeStep_eq_val _ conflict hl hc]
      refine ih acc hnd2 ?_
      intro k v1 v2 h1 h2
      refine hcomp k v1 v2 h1 ?_
      have hkp : p.1 ≠ k := by
        intro h
        exact hpn (h ▸ List.mem_map_of_mem Prod.fst (dlookup_mem h2))
      simp [dlookup, hkp, h2]
    | none =>
      rw [mergeStep_none _ conflict hl]
      refine ih (dinsert p.1 p.2 acc) hnd2 ?_
      intro k v1 v2 h1 h2
      have hkp : p.1 ≠ k := by
        intro h
        exact hpn (h ▸ List.mem_map_of_mem Prod.fst (dlookup_mem h2))
      rw [dlookup_dinsert, if_neg hkp] at h1
      refine hcomp k v1 v2 h1 ?_
      simp [dlookup, hkp, h2]

theorem mergeFold_nodupKV {K V : Type} [DecidableEq K] [DecidableEq V]
    (s : String) (conflict : K → V → V → MergeError) (keyf : V → K) :
    ∀ (l2 acc res : List (K × V)),
      NodupKV keyf acc → (∀ p ∈ l2, p.1 = keyf p.2) →
      l2.foldl (mergeStepKV s conflict) (.ok acc) = .ok res → NodupKV keyf res := by
  intro l2
  induction l2 with
  | nil =>
    intro acc res hacc _ heq
    cases heq
    exact hacc
  | cons p l2 ih =>
    intro acc res hacc hkv heq
    have hkvp : p.1 = keyf p.2 := hkv p (List.mem_cons_self p l2)
    have hkv2 : ∀ q ∈ l2, q.1 = keyf q.2 := fun q hq => hkv q (List.mem_cons_of_mem p hq)
    have hins : NodupKV keyf (dinsert p.1 p.2 acc) := by
      rw [hkvp]
      exact nodupKV_dinsert hacc p.2
    rw [List.foldl_cons] at heq
    cases hl : dlookup p.1 acc with
    | none =>
      rw [mergeStep_none s conflict hl] at heq
      exact ih _ res hins hkv2 heq
    | some v1 =>
      by_cases hv : v1 = p.2
      · rw [mergeStep_eq_val s conflict hl hv] at heq
        exact ih _ res hacc hkv2 heq
      · by_cases ho : s = "prefer_other"
        · cases ho
          rw [mergeStep_conf_other conflict hl hv] at heq
          exact ih _ res hins hkv2 heq
        · by_cases he : s = "error"
          · cases he
            rw [mergeStep_conf_error conflict hl hv, mergeFold_error] at heq
            exact Except.noConfusion heq
          · rw [mergeStep_conf_default s conflict hl hv ho he] at heq
            exact ih _ res hacc hkv2 heq

theorem merge_eq (r1 r2 : ConceptRegistry) (s : String) :
    r1.merge r2 s
      = match r2._concepts.foldl (mergeStepConcept s) (.ok r1._concepts) with
        | .error e => .error e
        | .ok concepts =>
          match r2._groups.foldl (mergeStepGroup s) (.ok r1._groups) with
          | .error e => .error e
          | .ok groups =>
            .ok (init (concepts.map Prod.snd) (groups.map Prod.snd)
              (match r1._schema with
                | some sc => some sc
                | none => r2._schema)) := by
  have hp1 : (pure r1._concepts : Except MergeError (List (Int × ConceptRecord)))
      = Except.ok r1._concepts := rfl
  have hp2 : (pure r1._groups : Except MergeError (List (String × ConceptGroupRecord)))
      = Except.ok r1._groups := rfl
  rw [ConceptRegistry.merge, hp1, hp2]
  cases hc : r2._concepts.foldl (mergeStepConcept s) (Except.ok r1._concepts) with
  | error e => rfl
  | ok concepts =>
    cases hg : r2._groups.foldl (mergeStepGroup s) (Except.ok r1._groups) with
    | error e => rfl
    | ok groups => rfl

theorem mergeStepConcept_def (s : String) :
    mergeStepConcept s = mergeStepKV s MergeError.conflictConcept := rfl

theorem mergeStepGroup_def (s : String) :
    mergeStepGroup s = mergeStepKV s MergeError.conflictGroup := rfl

theorem mergeStepKV_default {K V : Type} [DecidableEq K] [DecidableEq V]
    (s : String) (conflict : K → V → V → MergeError)
    (h1 : s ≠ "prefer_other") (h2 : s ≠ "error") :
    mergeStepKV s conflict = mergeStepKV "prefer_self" conflict := by
  funext acc p
  cases acc with
  | error e => rfl
  | ok m =>
    rw [mergeStepKV_ok_eq, mergeStepKV_ok_eq]
    cases dlookup p.1 m with
    | none => rfl
    | some v1 =>
      by_cases hv : v1 = p.2
      · simp [hv]
      · simp [hv, h1, h2]

/-- Rebuilding a registry from the stored concept values of a well-formed
concept dict preserves `get`. -/
theorem get_init_values (m : List (Int × ConceptRecord)) (gs : List ConceptGroupRecord)
    (s : Option SchemaInfo) (i : Int) (h : NodupKV (fun c : ConceptRecord => c.concept_id) m) :
    get (init (m.map Prod.snd) gs s) i = dlookup i m := by
  rw [get_init]
  exact values_reverse_find (fun c : ConceptRecord => c.concept_id) m i h

/-- Rebuilding a registry from the stored group values of a well-formed group
dict preserves the group lookup. -/
theorem groups_init_values (cs : List ConceptRecord) (m : List (String × ConceptGroupRecord))
    (s : Option SchemaInfo) (n : String)
    (h : NodupKV (fun g : ConceptGroupRecord => strLower g.name) m) :
    dlookup n (init cs (m.map Prod.snd) s)._groups = dlookup n m := by
  rw [groups_lookup_init]
  exact values_reverse_find (fun g : ConceptGroupRecord => strLower g.name) m n h

/-- A record with matching role and id sits among the stored concept values
exactly when `get` finds it (for a well-formed concept dict). -/
theorem mem_values_iff_get (r : ConceptRegistry)
    (h : NodupKV (fun c : ConceptRecord => c.concept_id) r._concepts) (ρ : String) (i : Int) :
    ((∃ c ∈ r._concepts.map Prod.snd, c.role = ρ ∧ c.concept_id = i)
      ↔ ∃ rec, r.get i = some rec ∧ rec.role = ρ) := by
  constructor
  · rintro ⟨c, hc, hrole, hid⟩
    rcases List.mem_map.mp hc with ⟨p, hp, rfl⟩
    have hkey : p.1 = i := (h.2 p hp).trans hid
    refine ⟨p.2, ?_, hrole⟩
    rw [ConceptRegistry.get, ← hkey]
    exact dlookup_of_mem h.1 (by rw [show (p.1, p.2) = p from rfl]; exact hp)
  · rintro ⟨rec, hget, hrole⟩
    have hmem : (i, rec) ∈ r._concepts := dlookup_mem hget
    refine ⟨rec, List.mem_map_of_mem Prod.snd hmem, hrole, ?_⟩
    exact (h.2 (i, rec) hmem).symm

end ConceptRegistry

/-- The head of the `insertionSort`-sorted unknown list is the minimum. -/
theorem insertionSort_head_min (l : List Int) (hl : l ≠ []) :
    ∃ m rest, l.insertionSort (· ≤ ·) = m :: rest ∧ m ∈ l ∧ ∀ y ∈ l, m ≤ y := by
  have hperm := l.perm_insertionSort (· ≤ ·)
  have hsorted := l.sorted_insertionSort (· ≤ ·)
  cases hs : l.insertionSort (· ≤ ·) with
  | nil =>
    rw [hs] at hperm
    exact absurd (List.Perm.symm hperm).eq_nil hl
  | cons m rest =>
    rw [hs] at hperm hsorted
    refine ⟨m, rest, rfl, hperm.mem_iff.mp (List.mem_cons_self m rest), ?_⟩
    intro y hy
    rcases List.mem_cons.mp (hperm.mem_iff.mpr hy) with h | h
    · exact le_of_eq h.symm
    · exact List.rel_of_sorted_cons hsorted y h

namespace ConceptRegistry

/-- First component of a cache-valid `ancestors_of` call: always the closure. -/
theorem ancestors_of_fst (r : ConceptRegistry) (cache : List (Int × Finset Int)) (x : Int)
    (h : ∀ i v, dlookup i cache = some v → v = ancestors_closure r i) :
    (ancestors_of r cache x).1 = ancestors_closure r x := by
  cases hly : dlookup x cache with
  | some v =>
    have he : ancestors_of r cache x = (v, cache) := by rw [ancestors_of, hly]
    rw [he]
    exact h x v hly
  | none =>
    have he : ancestors_of r cache x
        = (ancestors_closure r x, dinsert x (ancestors_closure r x) cache) := by
      rw [ancestors_of, hly]
    rw [he]

/-- Cache validity is preserved by an `ancestors_of` call. -/
theorem ancestors_of_snd_valid (r : ConceptRegistry) (cache : List (Int × Finset Int)) (x : Int)
    (h : ∀ i v, dlookup i cache = some v → v = ancestors_closure r i) :
    ∀ i v, dlookup i (ancestors_of r cache x).2 = some v → v = ancestors_closure r i := by
  cases hly : dlookup x cache with
  | some v0 =>
    have he : ancestors_of r cache x = (v0, cache) := by rw [ancestors_of, hly]
    rw [he]
    exact h
  | none =>
    have he : ancestors_of r cache x
        = (ancestors_closure r x, dinsert x (ancestors_closure r x) cache) := by
      rw [ancestors_of, hly]
    rw [he]
    intro i v hv
    rw [dlookup_dinsert] at hv
    by_cases hxi : x = i
    · rw [if_pos hxi] at hv
      cases hv
      rw [hxi]
    · rw [if_neg hxi] at hv
      exact h i v hv

end ConceptRegistry

/-! Claim theorems. -/

/-- Claim C1, counterexample: the registry whose two concepts form a directed
`parents` cycle (1 → 2 → 1) passes `validate` with `strict_parents=true` (and
all other strict flags enabled) without any error, although its parent graph
contains a cycle; so `validate` does not signal a ValidationError naming a
node on the cycle. -/
theorem claim_C1_counterexample :
    (ConceptRegistry.validate (ConceptRegistry.init
        [⟨1, "A", "x", [2], none, none⟩, ⟨2, "B", "x", [1], none, none⟩] [] none)
        true true true true = Except.ok ())
    ∧ parents_of (ConceptRegistry.init
        [⟨1, "A", "x", [2], none, none⟩, ⟨2, "B", "x", [1], none, none⟩] [] none) 1 = [2]
    ∧ parents_of (ConceptRegistry.init
        [⟨1, "A", "x", [2], none, none⟩, ⟨2, "B", "x", [1], none, none⟩] [] none) 2 = [1] := by
  refine ⟨?_, ?_, ?_⟩ <;> decide

/-- Claim C1, amended: for a registry without schema metadata and without
groups, `validate` with `strict_parents=true` succeeds exactly when every
parent identifier of every stored concept resolves to an existing concept;
the strict-parents check performs no cycle detection. -/
theorem claim_C1_amended (r : ConceptRegistry) (sr sgm ssc : Bool)
    (hs : r._schema = none) (hg : r._groups = []) :
    (r.validate sr true sgm ssc = .ok ()
      ↔ ∀ p ∈ r._concepts, ∀ pid ∈ p.2.parents, r.has pid = true) :=
  validate_strict_parents_iff r sr sgm ssc hs hg

/-- Witness for the amended claim C1 at a concrete registry. -/
theorem claim_C1_amended_witness :
    ((ConceptRegistry.init [⟨1, "A", "x", [2], none, none⟩, ⟨2, "B", "x", [1], none, none⟩]
        [] none).validate true true true true = .ok ()
      ↔ ∀ p ∈ (ConceptRegistry.init [⟨1, "A", "x", [2], none, none⟩,
            ⟨2, "B", "x", [1], none, none⟩] [] none)._concepts,
          ∀ pid ∈ p.2.parents,
            (ConceptRegistry.init [⟨1, "A", "x", [2], none, none⟩,
              ⟨2, "B", "x", [1], none, none⟩] [] none).has pid = true) :=
  claim_C1_amended
    (ConceptRegistry.init [⟨1, "A", "x", [2], none, none⟩, ⟨2, "B", "x", [1], none, none⟩]
      [] none)
    true true true (by decide) (by decide)

/-- Claim C2: under a valid ancestor cache (every cached entry equals the
ancestor closure), `ancestors_of` satisfies the spec's fixed point — the
result equals `parents_of(x)` together with the union of `ancestors_of(p)`
over the direct parents `p` — and is idempotent across repeated calls on the
same registry: calling again with the returned cache gives the same set, and
the returned cache is again valid. -/
theorem claim_C2 (r : ConceptRegistry) (cache : List (Int × Finset Int)) (x : Int)
    (hcache : ∀ i v, dlookup i cache = some v → v = ancestors_closure r i) :
    ((ancestors_of r cache x).1
        = (parents_of r x).toFinset
            ∪ (parents_of r x).toFinset.biUnion (fun p => (ancestors_of r cache p).1))
    ∧ (ancestors_of r (ancestors_of r cache x).2 x).1 = (ancestors_of r cache x).1
    ∧ (∀ i v, dlookup i (ancestors_of r cache x).2 = some v → v = ancestors_closure r i) := by
  have hval : ∀ y, (ancestors_of r cache y).1 = ancestors_closure r y :=
    fun y => ConceptRegistry.ancestors_of_fst r cache y hcache
  have hsnd := ConceptRegistry.ancestors_of_snd_valid r cache x hcache
  refine ⟨?_, ?_, hsnd⟩
  · rw [hval x, closure_fixed_point]
    congr 1
    refine Finset.biUnion_congr rfl ?_
    intro p _
    rw [hval p]
  · rw [ConceptRegistry.ancestors_of_fst r _ x hsnd, hval x]

/-- Witness for claim C2: concrete two-concept registry with an empty cache;
also records the concrete closure value. -/
theorem claim_C2_witness :
    ((ancestors_of (ConceptRegistry.init
          [⟨1, "A", "x", [], none, none⟩, ⟨2, "B", "x", [1], none, none⟩] [] none)
        (ancestors_of (ConceptRegistry.init
          [⟨1, "A", "x", [], none, none⟩, ⟨2, "B", "x", [1], none, none⟩] [] none) [] 2).2 2).1
      = (ancestors_of (ConceptRegistry.init
          [⟨1, "A", "x", [], none, none⟩, ⟨2, "B", "x", [1], none, none⟩] [] none) [] 2).1)
    ∧ (ancestors_of (ConceptRegistry.init
          [⟨1, "A", "x", [], none, none⟩, ⟨2, "B", "x", [1], none, none⟩] [] none) [] 2).1
        = {1} :=
  ⟨(claim_C2 (ConceptRegistry.init
      [⟨1, "A", "x", [], none, none⟩, ⟨2, "B", "x", [1], none, none⟩] [] none) [] 2
      (by intro i v h; simp [dlookup] at h)).2.1,
   by decide⟩

/-- Claim C3: `resolve` dispatches on the reference variant — a
single-concept reference yields its singleton id and errors without one, an
enumeration yields exactly the ids of members carrying one (members without
an id are skipped silently), a group yields only its anchor
(`parent_concepts`) ids, and the remaining variant (`OmopValueSet`) raises
the unsupported-variant error. -/
theorem claim_C3 :
    (∀ (n : String) (i : Int) (l : Option String),
        Resolver.resolve (.omopConcept n (some i) l) = .ok {i})
    ∧ (∀ (n : String) (l : Option String),
        Resolver.resolve (.omopConcept n none l) = .error (.missingConceptId n))
    ∧ (∀ (n : String) (ms : List Resolver.Concept) (x : Int),
        ∃ S, Resolver.resolve (.omopEnum n ms) = .ok S
          ∧ (x ∈ S ↔ ∃ c ∈ ms, c.concept_id = some x))
    ∧ (∀ (n : String) (ps : Option (List Resolver.Concept)) (x : Int),
        ∃ S, Resolver.resolve (.omopGroup n ps) = .ok S
          ∧ (x ∈ S ↔ ∃ c ∈ ps.getD [], c.concept_id = some x))
    ∧ (∀ (n : String) (ms : List Resolver.OmopSemanticObject),
        Resolver.resolve (.omopValueSet n ms) = .error .unsupportedVariant) := by
  refine ⟨fun n i l => rfl, fun n l => rfl, ?_, ?_, fun n ms => rfl⟩
  · intro n ms x
    refine ⟨_, rfl, ?_⟩
    simp [List.mem_toFinset, List.mem_filterMap]
  · intro n ps x
    refine ⟨_, rfl, ?_⟩
    simp [List.mem_toFinset, List.mem_filterMap]

/-- Claim C4: merging two registries that share a concept identifier mapped
to unequal values raises, under strategy `error`, a conflict naming the two
values; under `prefer_self` the result keeps the left operand's concept at
every identifier the left operand stores; under `prefer_other` the right
operand's; concepts (keyed by id) and groups (keyed by lowercase name) are
handled independently; and the result's schema is self's unless self has
none, in which case other's. -/
theorem claim_C4 (r1 r2 : ConceptRegistry)
    (cs1 : List ConceptRecord) (gs1 : List ConceptGroupRecord) (s1 : Option SchemaInfo)
    (cs2 : List ConceptRecord) (gs2 : List ConceptGroupRecord) (s2 : Option SchemaInfo)
    (h1 : r1 = ConceptRegistry.init cs1 gs1 s1) (h2 : r2 = ConceptRegistry.init cs2 gs2 s2) :
    ((∃ i c1 c2, r1.get i = some c1 ∧ r2.get i = some c2 ∧ c1 ≠ c2) →
      ∃ i c1 c2, r1.merge r2 "error" = .error (.conflictConcept i c1 c2)
        ∧ r1.get i = some c1 ∧ r2.get i = some c2 ∧ c1 ≠ c2)
    ∧ (∃ res, r1.merge r2 "prefer_self" = .ok res
        ∧ (∀ i c, r1.get i = some c → res.get i = some c)
        ∧ (∀ i, r1.get i = none → res.get i = r2.get i)
        ∧ (∀ n g, dlookup n r1._groups = some g → dlookup n res._groups = some g)
        ∧ (∀ n, dlookup n r1._groups = none → dlookup n res._groups = dlookup n r2._groups)
        ∧ (∀ sc, r1._schema = some sc → res._schema = some sc)
        ∧ (r1._schema = none → res._schema = r2._schema))
    ∧ (∃ res, r1.merge r2 "prefer_other" = .ok res
        ∧ (∀ i c, r2.get i = some c → res.get i = some c)
        ∧ (∀ i, r2.get i = none → res.get i = r1.get i)
        ∧ (∀ n g, dlookup n r2._groups = some g → dlookup n res._groups = some g)
        ∧ (∀ n, dlookup n r2._groups = none → dlookup n res._groups = dlookup n r1._groups)
        ∧ (∀ sc, r1._schema = some sc → res._schema = some sc)
        ∧ (r1._schema = none → res._schema = r2._schema))
    ∧ ((∀ i c1 c2, r1.get i = some c1 → r2.get i = some c2 → c1 = c2) →
      (∃ gk g1 g2, dlookup gk r1._groups = some g1 ∧ dlookup gk r2._groups = some g2 ∧ g1 ≠ g2) →
      ∃ gk g1 g2, r1.merge r2 "error" = .error (.conflictGroup gk g1 g2)
        ∧ dlookup gk r1._groups = some g1 ∧ dlookup gk r2._groups = some g2 ∧ g1 ≠ g2) := by
  have hnd1c : NodupKV (fun c : ConceptRecord => c.concept_id) r1._concepts := by
    rw [h1]; exact ConceptRegistry.init_concepts_nodupKV cs1 gs1 s1
  have hnd2c : NodupKV (fun c : ConceptRecord => c.concept_id) r2._concepts := by
    rw [h2]; exact ConceptRegistry.init_concepts_nodupKV cs2 gs2 s2
  have hnd1g : NodupKV (fun g : ConceptGroupRecord => strLower g.name) r1._groups := by
    rw [h1]; exact ConceptRegistry.init_groups_nodupKV cs1 gs1 s1
  have hnd2g : NodupKV (fun g : ConceptGroupRecord => strLower g.name) r2._groups := by
    rw [h2]; exact ConceptRegistry.init_groups_nodupKV cs2 gs2 s2
  refine ⟨?_, ?_, ?_, ?_⟩
  · intro hconf
    rcases ConceptRegistry.mergeFold_error_conflict MergeError.conflictConcept
        r2._concepts r1._concepts hnd2c.1 hconf with ⟨k, v1, v2, herr, hk1, hk2, hne⟩
    refine ⟨k, v1, v2, ?_, hk1, hk2, hne⟩
    rw [ConceptRegistry.merge_eq, ConceptRegistry.mergeStepConcept_def, herr]
  · rcases ConceptRegistry.mergeFold_prefer_self MergeError.conflictConcept
        r2._concepts r1._concepts with ⟨resc, heqc, hlookc⟩
    rcases ConceptRegistry.mergeFold_prefer_self MergeError.conflictGroup
        r2._groups r1._groups with ⟨resg, heqg, hlookg⟩
    have hndresc : NodupKV (fun c : ConceptRecord => c.concept_id) resc :=
      ConceptRegistry.mergeFold_nodupKV "prefer_self" MergeError.conflictConcept _
        r2._concepts r1._concepts resc hnd1c hnd2c.2 heqc
    have hndresg : NodupKV (fun g : ConceptGroupRecord => strLower g.name) resg :=
      ConceptRegistry.mergeFold_nodupKV "prefer_self" MergeError.conflictGroup _
        r2._groups r1._groups resg hnd1g hnd2g.2 heqg
    have hexists : ∃ res, r1.merge r2 "prefer_self" = .ok res := by
      rw [ConceptRegistry.merge_eq, ConceptRegistry.mergeStepConcept_def,
        ConceptRegistry.mergeStepGroup_def, heqc, heqg]
      exact ⟨_, rfl⟩
    rcases hexists with ⟨res, hres⟩
    have hresval := hres
    rw [ConceptRegistry.merge_eq, ConceptRegistry.mergeStepConcept_def,
      ConceptRegistry.mergeStepGroup_def, heqc, heqg] at hresval
    have hresval2 := (Except.ok.injEq _ _).mp hresval
    refine ⟨res, hres, ?_, ?_, ?_, ?_, ?_, ?_⟩
    · intro i c hc
      have hc2 : dlookup i r1._concepts = some c := hc
      rw [← hresval2, ConceptRegistry.get_init_values _ _ _ i hndresc, hlookc i, hc2]
    · intro i hc
      have hc2 : dlookup i r1._concepts = none := hc
      rw [← hresval2, ConceptRegistry.get_init_values _ _ _ i hndresc, hlookc i, hc2]
      rfl
    · intro n g hg
      rw [← hresval2, ConceptRegistry.groups_init_values _ _ _ n hndresg, hlookg n, hg]
    · intro n hg
      rw [← hresval2, ConceptRegistry.groups_init_values _ _ _ n hndresg, hlookg n, hg]
    · intro sc hsc
      rw [← hresval2, ConceptRegistry.schema_init, hsc]
    · intro hsc
      rw [← hresval2, ConceptRegistry.schema_init, hsc]
  · rcases ConceptRegistry.mergeFold_prefer_other MergeError.conflictConcept
        r2._concepts r1._concepts hnd2c.1 with ⟨resc, heqc, hlookc⟩
    rcases ConceptRegistry.mergeFold_prefer_other MergeError.conflictGroup
        r2._groups r1._groups hnd2g.1 with ⟨resg, heqg, hlookg⟩
    have hndresc : NodupKV (fun c : ConceptRecord => c.concept_id) resc :=
      ConceptRegistry.mergeFold_nodupKV "prefer_other" MergeError.conflictConcept _
        r2._concepts r1._concepts resc hnd1c hnd2c.2 heqc
    have hndresg : NodupKV (fun g : ConceptGroupRecord => strLower g.name) resg :=
      ConceptRegistry.mergeFold_nodupKV "prefer_other" MergeError.conflictGroup _
        r2._groups r1._groups resg hnd1g hnd2g.2 heqg
    have hexists : ∃ res, r1.merge r2 "prefer_other" = .ok res := by
      rw [ConceptRegistry.merge_eq, ConceptRegistry.mergeStepConcept_def,
        ConceptRegistry.mergeStepGroup_def, heqc, heqg]
      exact ⟨_, rfl⟩
    rcases hexists with ⟨res, hres⟩
    have hresval := hres
    rw [ConceptRegistry.merge_eq, ConceptRegistry.mergeStepConcept_def,
      ConceptRegistry.mergeStepGroup_def, heqc, heqg] at hresval
    have hresval2 := (Except.ok.injEq _ _).mp hresval
    refine ⟨res, hres, ?_, ?_, ?_, ?_, ?_, ?_⟩
    · intro i c hc
      have hc2 : dlookup i r2._concepts = some c := hc
      rw [← hresval2, ConceptRegistry.get_init_values _ _ _ i hndresc, hlookc i, hc2]
    · intro i hc
      have hc2 : dlookup i r2._concepts = none := hc
      rw [← hresval2, ConceptRegistry.get_init_values _ _ _ i hndresc, hlookc i, hc2]
      rfl
    · intro n g hg
      rw [← hresval2, ConceptRegistry.groups_init_values _ _ _ n hndresg, hlookg n, hg]
    · intro n hg
      rw [← hresval2, ConceptRegistry.groups_init_values _ _ _ n hndresg, hlookg n, hg]
    · intro sc hsc
      rw [← hresval2, ConceptRegistry.schema_init, hsc]
    · intro hsc
      rw [← hresval2, ConceptRegistry.schema_init, hsc]
  · intro hcomp hgconf
    rcases ConceptRegistry.mergeFold_error_ok MergeError.conflictConcept
        r2._concepts r1._concepts hnd2c.1 hcomp with ⟨resc, heqc⟩
    rcases ConceptRegistry.mergeFold_error_conflict MergeError.conflictGroup
        r2._groups r1._groups hnd2g.1 hgconf with ⟨gk, g1, g2, herr, hg1, hg2, hne⟩
    refine ⟨gk, g1, g2, ?_, hg1, hg2, hne⟩
    rw [ConceptRegistry.merge_eq, ConceptRegistry.mergeStepConcept_def,
      ConceptRegistry.mergeStepGroup_def, heqc, herr]

/-- Witness for claim C4: two concrete one-concept registries sharing id 1
with different labels; merge with `error` raises the concept conflict. -/
theorem claim_C4_witness :
    ∃ i c1 c2,
      (ConceptRegistry.init [⟨1, "A", "x", [], none, none⟩] [] none).merge
          (ConceptRegistry.init [⟨1, "B", "x", [], none, none⟩] [] none) "error"
        = .error (.conflictConcept i c1 c2)
      ∧ (ConceptRegistry.init [⟨1, "A", "x", [], none, none⟩] [] none).get i = some c1
      ∧ (ConceptRegistry.init [⟨1, "B", "x", [], none, none⟩] [] none).get i = some c2
      ∧ c1 ≠ c2 :=
  (claim_C4 (ConceptRegistry.init [⟨1, "A", "x", [], none, none⟩] [] none)
    (ConceptRegistry.init [⟨1, "B", "x", [], none, none⟩] [] none)
    [⟨1, "A", "x", [], none, none⟩] [] none
    [⟨1, "B", "x", [], none, none⟩] [] none rfl rfl).1
    ⟨1, ⟨1, "A", "x", [], none, none⟩, ⟨1, "B", "x", [], none, none⟩,
      by decide, by decide, by decide⟩

/-- Claim C5: `with_added_concept` returns a new registry that stores the
added concept at its identifier, agrees with the receiver's `get` at every
other identifier, and whose role index is the receiver's stored concepts
plus the addition; the receiver itself is left observationally unchanged
(the embedding is pure state passing: the operation builds a new value and
never mutates its input, so the receiver's `get` and `by_role` equal their
pre-call values). -/
theorem claim_C5 (r : ConceptRegistry) (cs : List ConceptRecord)
    (gs : List ConceptGroupRecord) (s : Option SchemaInfo)
    (hr : r = ConceptRegistry.init cs gs s) (c : ConceptRecord) :
    ((r.with_added_concept c).get c.concept_id = some c)
    ∧ (∀ i, i ≠ c.concept_id → (r.with_added_concept c).get i = r.get i)
    ∧ (∀ ρ i, i ∈ (r.with_added_concept c).by_role ρ
        ↔ ((∃ rec, r.get i = some rec ∧ rec.role = ρ) ∨ (i = c.concept_id ∧ ρ = c.role)))
    ∧ r.get = (ConceptRegistry.init cs gs s).get
    ∧ (∀ ρ, r.by_role ρ = (ConceptRegistry.init cs gs s).by_role ρ) := by
  have hnd : NodupKV (fun c : ConceptRecord => c.concept_id) r._concepts := by
    rw [hr]; exact ConceptRegistry.init_concepts_nodupKV cs gs s
  refine ⟨?_, ?_, ?_, by rw [hr], fun ρ => by rw [hr]⟩
  · rw [ConceptRegistry.with_added_concept, ConceptRegistry.get_init, List.reverse_append]
    simp [List.find?]
  · intro i hi
    rw [ConceptRegistry.with_added_concept, ConceptRegistry.get_init, List.reverse_append]
    have hd : (decide (c.concept_id = i)) = false := by
      simp
      exact fun h => hi h.symm
    have hcons : ((([c] : List ConceptRecord).reverse
          ++ (r._concepts.map Prod.snd).reverse).find? fun d => decide (d.concept_id = i))
        = (r._concepts.map Prod.snd).reverse.find? fun d => decide (d.concept_id = i) := by
      simp [List.find?, hd]
    rw [hcons]
    exact values_reverse_find (fun d : ConceptRecord => d.concept_id) r._concepts i hnd
  · intro ρ i
    rw [ConceptRegistry.with_added_concept, ConceptRegistry.by_role_init_mem]
    have hmv := ConceptRegistry.mem_values_iff_get r hnd ρ i
    constructor
    · rintro ⟨d, hd, hrole, hid⟩
      rcases List.mem_append.mp hd with h | h
      · exact Or.inl (hmv.mp ⟨d, h, hrole, hid⟩)
      · rw [List.mem_singleton] at h
        cases h
        exact Or.inr ⟨hid.symm, hrole.symm⟩
    · rintro (⟨rec, hget, hrole⟩ | ⟨hi, hρ⟩)
      · rcases hmv.mpr ⟨rec, hget, hrole⟩ with ⟨d, hd, hrole2, hid2⟩
        exact ⟨d, List.mem_append_left _ hd, hrole2, hid2⟩
      · exact ⟨c, List.mem_append_right _ (List.mem_singleton.mpr rfl), hρ.symm, hi.symm⟩

/-- Witness for claim C5 at a concrete registry and concept. -/
theorem claim_C5_witness :
    (((ConceptRegistry.init [⟨1, "A", "x", [], none, none⟩] [] none).with_added_concept
        ⟨2, "B", "y", [], none, none⟩).get 2 = some ⟨2, "B", "y", [], none, none⟩)
    ∧ ((ConceptRegistry.init [⟨1, "A", "x", [], none, none⟩] [] none).with_added_concept
        ⟨2, "B", "y", [], none, none⟩).get 1
      = (ConceptRegistry.init [⟨1, "A", "x", [], none, none⟩] [] none).get 1 :=
  ⟨(claim_C5 (ConceptRegistry.init [⟨1, "A", "x", [], none, none⟩] [] none)
      [⟨1, "A", "x", [], none, none⟩] [] none rfl ⟨2, "B", "y", [], none, none⟩).1,
   (claim_C5 (ConceptRegistry.init [⟨1, "A", "x", [], none, none⟩] [] none)
      [⟨1, "A", "x", [], none, none⟩] [] none rfl ⟨2, "B", "y", [], none, none⟩).2.1 1
      (by decide)⟩

/-- Claim C8: for any strategy string other than `prefer_other` and `error`
(misspellings included), `merge` never raises and coincides with the
`prefer_self` strategy — the strategy argument is not validated. -/
theorem claim_C8 (r1 r2 : ConceptRegistry) (s : String)
    (h1 : s ≠ "prefer_other") (h2 : s ≠ "error") :
    r1.merge r2 s = r1.merge r2 "prefer_self" ∧ ∃ res, r1.merge r2 s = .ok res := by
  have hc := ConceptRegistry.mergeStepKV_default s MergeError.conflictConcept h1 h2
  have hg := ConceptRegistry.mergeStepKV_default s MergeError.conflictGroup h1 h2
  have hmerge : r1.merge r2 s = r1.merge r2 "prefer_self" := by
    rw [ConceptRegistry.merge_eq, ConceptRegistry.merge_eq,
      ConceptRegistry.mergeStepConcept_def, ConceptRegistry.mergeStepConcept_def,
      ConceptRegistry.mergeStepGroup_def, ConceptRegistry.mergeStepGroup_def, hc, hg]
  refine ⟨hmerge, ?_⟩
  rw [hmerge, ConceptRegistry.merge_eq, ConceptRegistry.mergeStepConcept_def,
    ConceptRegistry.mergeStepGroup_def]
  rcases ConceptRegistry.mergeFold_ok "prefer_self" (by decide) MergeError.conflictConcept
      r2._concepts r1._concepts with ⟨resc, heqc⟩
  rw [heqc]
  rcases ConceptRegistry.mergeFold_ok "prefer_self" (by decide) MergeError.conflictGroup
      r2._groups r1._groups with ⟨resg, heqg⟩
  rw [heqg]
  exact ⟨_, rfl⟩

/-- Witness for claim C8: the misspelled strategy "prefer_both" on two
conflicting concrete registries behaves as `prefer_self` and does not raise. -/
theorem claim_C8_witness :
    (ConceptRegistry.init [⟨1, "A", "x", [], none, none⟩] [] none).merge
        (ConceptRegistry.init [⟨1, "B", "x", [], none, none⟩] [] none) "prefer_both"
      = (ConceptRegistry.init [⟨1, "A", "x", [], none, none⟩] [] none).merge
        (ConceptRegistry.init [⟨1, "B", "x", [], none, none⟩] [] none) "prefer_self"
    ∧ ∃ res, (ConceptRegistry.init [⟨1, "A", "x", [], none, none⟩] [] none).merge
        (ConceptRegistry.init [⟨1, "B", "x", [], none, none⟩] [] none) "prefer_both"
      = .ok res :=
  claim_C8 (ConceptRegistry.init [⟨1, "A", "x", [], none, none⟩] [] none)
    (ConceptRegistry.init [⟨1, "B", "x", [], none, none⟩] [] none) "prefer_both"
    (by decide) (by decide)

/-- Claim C6: `default_unknown(label_hint)` returns the identifier whose
lowercase label matches the hint when that concept carries the "unknown"
role; otherwise it falls back to the lowest identifier among the concepts
indexed under the "unknown" role; and it raises exactly when no unknown
concepts are registered at all. -/
theorem claim_C6 (r : ConceptRegistry) (hint : String) :
    ((∃ e, r.default_unknown hint = .error e) ↔ r.unknowns = [])
    ∧ (∀ cid, dlookup (strLower hint) r._by_label = some cid → cid ∈ r.unknowns →
        r.default_unknown hint = .ok cid)
    ∧ (r.unknowns ≠ [] →
        (∀ cid, dlookup (strLower hint) r._by_label = some cid → cid ∉ r.unknowns) →
        ∃ m, r.default_unknown hint = .ok m ∧ m ∈ r.unknowns ∧ ∀ u ∈ r.unknowns, m ≤ u) := by
  by_cases hemp : r.unknowns = []
  · have hs : (r.unknowns).insertionSort (· ≤ ·) = [] := by rw [hemp]; rfl
    have hres : r.default_unknown hint = .error "No unknown concepts registered" := by
      simp only [ConceptRegistry.default_unknown, hs]
      cases hl : dlookup (strLower hint) r._by_label with
      | none => rfl
      | some cid =>
        have hnm : cid ∉ r.unknowns := by rw [hemp]; simp
        simp [ConceptRegistry.is_unknown, hnm]
    refine ⟨⟨fun _ => hemp, fun _ => ⟨_, hres⟩⟩, ?_, ?_⟩
    · intro cid _ hmem
      rw [hemp] at hmem
      simp at hmem
    · intro hne _
      exact absurd hemp hne
  · rcases insertionSort_head_min r.unknowns hemp with ⟨m, rest, hs, hmem, hmin⟩
    have hnoerr : ∀ e, r.default_unknown hint ≠ .error e := by
      intro e
      simp only [ConceptRegistry.default_unknown, hs]
      cases hl : dlookup (strLower hint) r._by_label with
      | none => simp
      | some cid =>
        by_cases hu : cid ∈ r.unknowns
        · simp [ConceptRegistry.is_unknown, hu]
        · simp [ConceptRegistry.is_unknown, hu]
    refine ⟨⟨fun he => ?_, fun h => absurd h hemp⟩, ?_, ?_⟩
    · rcases he with ⟨e, he⟩
      exact absurd he (hnoerr e)
    · intro cid hcid hu
      simp only [ConceptRegistry.default_unknown, hcid]
      simp [ConceptRegistry.is_unknown, hu]
    · intro _ hnot
      refine ⟨m, ?_, hmem, hmin⟩
      simp only [ConceptRegistry.default_unknown, hs]
      cases hl : dlookup (strLower hint) r._by_label with
      | none => rfl
      | some cid =>
        have hnm : cid ∉ r.unknowns := hnot cid hl
        simp [ConceptRegistry.is_unknown, hnm]

/-- Witness for claim C6: label-hint match tagged unknown on a concrete
registry with unknown concepts 7 and 3. -/
theorem claim_C6_witness :
    (ConceptRegistry.init [⟨7, "Default Unknown", "unknown", [], none, none⟩,
        ⟨3, "Other", "unknown", [], none, none⟩] [] none).default_unknown "Other"
      = .ok 3 :=
  (claim_C6 (ConceptRegistry.init [⟨7, "Default Unknown", "unknown", [], none, none⟩,
      ⟨3, "Other", "unknown", [], none, none⟩] [] none) "Other").2.1 3
    (by decide) (by decide)

/-- Claim C7: in the compiled value-set namespace, a semantic-unit attribute
that names a group (and not an enum) collapses to the bare anchor identifier
when the group's runtime label map has exactly one entry, while a group with
more than one anchor entry yields the group namespace object, on which each
anchor label resolves to its identifier. -/
theorem claim_C7 (u : ValueSets.RuntimeSemanticUnit) (name : String) (g : ValueSets.RuntimeGroup)
    (he : dlookup name u.enums = none) (hg : dlookup name u.groups = some g) :
    (∀ l i, g._by_label = [(l, i)] → u.getattr name = .ok (.idV i))
    ∧ (1 < g._by_label.length →
        (u.getattr name = .ok (.groupNS g)
          ∧ ∀ l i, dlookup l g._by_label = some i → startsWithUnderscore l = false →
              ValueSets.labelledAttr g._by_label l = .ok i)) := by
  have hbase : u.getattr name
      = (if g.is_singleton then
          (match g.value with
            | some i => Except.ok (ValueSets.AttrValue.idV i)
            | none => Except.error (ValueSets.AttrErr.attributeError name))
        else .ok (.groupNS g)) := by
    simp only [ValueSets.RuntimeSemanticUnit.getattr, he, hg]
  constructor
  · intro l i hlab
    have hsing : g.is_singleton = true := by
      simp [ValueSets.RuntimeGroup.is_singleton, hlab]
    have hval : g.value = some i := by
      simp [ValueSets.RuntimeGroup.value, hsing, hlab]
    rw [hbase, if_pos hsing, hval]
  · intro hlen
    have hsing : g.is_singleton = false := by
      simp only [ValueSets.RuntimeGroup.is_singleton]
      simp only [beq_eq_false_iff_ne, ne_eq]
      omega
    constructor
    · rw [hbase, if_neg (by simp [hsing])]
    · intro l i hl hus
      simp only [ValueSets.labelledAttr, hus, hl]
      rfl

/-- Witness for claim C7: a concrete semantic unit holding one two-anchor
group yields the group namespace object for that attribute. -/
theorem claim_C7_witness :
    (ValueSets.RuntimeSemanticUnit.init
        ⟨some "u", some [], some [], some [⟨some "grp",
          some [⟨some 1, some "a"⟩, ⟨some 2, some "b"⟩]⟩]⟩).getattr "grp"
      = .ok (.groupNS (ValueSets.RuntimeGroup.init
          ⟨some "grp", some [⟨some 1, some "a"⟩, ⟨some 2, some "b"⟩]⟩)) :=
  ((claim_C7 (ValueSets.RuntimeSemanticUnit.init
      ⟨some "u", some [], some [], some [⟨some "grp",
        some [⟨some 1, some "a"⟩, ⟨some 2, some "b"⟩]⟩]⟩) "grp"
    (ValueSets.RuntimeGroup.init
      ⟨some "grp", some [⟨some 1, some "a"⟩, ⟨some 2, some "b"⟩]⟩)
    (by decide) (by decide)).2 (by decide)).1

/-- Claim C9: group lookups by name (`group`/`try_group`/`group_members`)
are case-insensitive (they lowercase the queried name against the lowercase
key), while `in_group` matches the original-case name recorded at
construction: for a group named "G" with member m, `in_group m "G"` holds
and `in_group m "g"` does not, although `try_group "g"` finds the group. -/
theorem claim_C9 (cs : List ConceptRecord) (role : String) (members : List Int)
    (notes kind : Option String) (excl : Bool) (s : Option SchemaInfo) (m : Int)
    (hm : m ∈ members) :
    (ConceptRegistry.init cs [⟨"G", role, members, notes, kind, excl⟩] s).in_group m "G" = true
    ∧ (ConceptRegistry.init cs [⟨"G", role, members, notes, kind, excl⟩] s).in_group m "g" = false
    ∧ (ConceptRegistry.init cs [⟨"G", role, members, notes, kind, excl⟩] s).try_group "g"
        = some ⟨"G", role, members, notes, kind, excl⟩
    ∧ (ConceptRegistry.init cs [⟨"G", role, members, notes, kind, excl⟩] s).try_group "G"
        = some ⟨"G", role, members, notes, kind, excl⟩
    ∧ (ConceptRegistry.init cs [⟨"G", role, members, notes, kind, excl⟩] s).group_members "g"
        = some members := by
  have hlookg : dlookup (strLower "g")
      (ConceptRegistry.init cs [⟨"G", role, members, notes, kind, excl⟩] s)._groups
      = some ⟨"G", role, members, notes, kind, excl⟩ := by
    rw [ConceptRegistry.groups_lookup_init]
    have hname : strLower (⟨"G", role, members, notes, kind, excl⟩ : ConceptGroupRecord).name
        = strLower "g" := by
      show strLower "G" = strLower "g"
      decide
    simp [List.find?, hname]
  have hlookG : dlookup (strLower "G")
      (ConceptRegistry.init cs [⟨"G", role, members, notes, kind, excl⟩] s)._groups
      = some ⟨"G", role, members, notes, kind, excl⟩ := by
    rw [ConceptRegistry.groups_lookup_init]
    have hname : strLower (⟨"G", role, members, notes, kind, excl⟩ : ConceptGroupRecord).name
        = strLower "G" := by
      show strLower "G" = strLower "G"
      decide
    simp [List.find?, hname]
  refine ⟨?_, ?_, hlookg, hlookG, ?_⟩
  · simp only [ConceptRegistry.in_group, decide_eq_true_eq]
    exact (ConceptRegistry.groups_by_member_init_mem cs _ s m "G").mpr
      ⟨⟨"G", role, members, notes, kind, excl⟩, List.mem_singleton.mpr rfl, hm, rfl⟩
  · simp only [ConceptRegistry.in_group]
    rw [decide_eq_false_iff_not]
    intro hcon
    rcases (ConceptRegistry.groups_by_member_init_mem cs _ s m "g").mp hcon with
      ⟨g2, hg2, _, hname⟩
    rw [List.mem_singleton] at hg2
    rw [hg2] at hname
    have hGg : ("G" : String) ≠ "g" := by decide
    exact hGg hname
  · rw [ConceptRegistry.group_members, ConceptRegistry.group, hlookg]
    rfl

/-- Witness for claim C9 at a concrete registry with one group "G". -/
theorem claim_C9_witness :
    (ConceptRegistry.init [] [⟨"G", "x", [5], none, none, false⟩] none).in_group 5 "G" = true
    ∧ (ConceptRegistry.init [] [⟨"G", "x", [5], none, none, false⟩] none).in_group 5 "g"
        = false :=
  ⟨(claim_C9 [] "x" [5] none none false none 5 (by decide)).1,
   (claim_C9 [] "x" [5] none none false none 5 (by decide)).2.1⟩

/-- Claim C10: with duplicate-free identifiers the role index matches the
stored concepts exactly, and with additionally duplicate-free lowercase
labels the label index maps each stored concept's lowercase label to its
identifier; if two input concepts share an identifier, the later one wins in
`get` while the role index retains the earlier concept's role entry. -/
theorem claim_C10 (cs : List ConceptRecord) (gs : List ConceptGroupRecord)
    (s : Option SchemaInfo) :
    (((cs.map (fun c => c.concept_id)).Nodup →
      ∀ ρ i, (i ∈ (ConceptRegistry.init cs gs s).by_role ρ
        ↔ ∃ rec, (ConceptRegistry.init cs gs s).get i = some rec ∧ rec.role = ρ))
    ∧ ((cs.map (fun c => strLower c.label)).Nodup →
      ∀ c ∈ cs, (ConceptRegistry.init cs gs s).try_by_label c.label = some c.concept_id)
    ∧ (∀ (pre : List ConceptRecord) (c1 c2 : ConceptRecord),
        c1.concept_id = c2.concept_id →
        ((ConceptRegistry.init (pre ++ [c1, c2]) gs s).get c1.concept_id = some c2
          ∧ c1.concept_id ∈ (ConceptRegistry.init (pre ++ [c1, c2]) gs s).by_role c1.role
          ∧ c1.concept_id ∈ (ConceptRegistry.init (pre ++ [c1, c2]) gs s).by_role c2.role))) := by
  refine ⟨?_, ?_, ?_⟩
  · intro hnd ρ i
    rw [ConceptRegistry.by_role_init_mem]
    constructor
    · rintro ⟨c, hc, hrole, hid⟩
      have hsome : ((cs.reverse.find? (fun d => decide (d.concept_id = i))).isSome) := by
        rw [List.find?_isSome]
        exact ⟨c, List.mem_reverse.mpr hc, by simp [hid]⟩
      rcases Option.isSome_iff_exists.mp hsome with ⟨d, hd⟩
      have hdm : d ∈ cs := List.mem_reverse.mp (List.mem_of_find?_eq_some hd)
      have hdi : d.concept_id = i := by
        have := List.find?_some hd
        simpa using this
      have hdc : d = c := List.inj_on_of_nodup_map hnd hdm hc (hdi.trans hid.symm)
      refine ⟨d, ?_, by rw [hdc]; exact hrole⟩
      rw [ConceptRegistry.get_init, hd]
    · rintro ⟨rec, hget, hrole⟩
      rw [ConceptRegistry.get_init] at hget
      have hrm : rec ∈ cs := List.mem_reverse.mp (List.mem_of_find?_eq_some hget)
      have hri : rec.concept_id = i := by
        have := List.find?_some hget
        simpa using this
      exact ⟨rec, hrm, hrole, hri⟩
  · intro hnd c hc
    rw [ConceptRegistry.try_by_label, ConceptRegistry.by_label_init]
    have hsome : ((cs.reverse.find? (fun d => decide (strLower d.label = strLower c.label))).isSome) := by
      rw [List.find?_isSome]
      exact ⟨c, List.mem_reverse.mpr hc, by simp⟩
    rcases Option.isSome_iff_exists.mp hsome with ⟨d, hd⟩
    have hdm : d ∈ cs := List.mem_reverse.mp (List.mem_of_find?_eq_some hd)
    have hdl : strLower d.label = strLower c.label := by
      have := List.find?_some hd
      simpa using this
    have hdc : d = c := List.inj_on_of_nodup_map hnd hdm hc hdl
    rw [hd, hdc]
    rfl
  · intro pre c1 c2 hid
    refine ⟨?_, ?_, ?_⟩
    · rw [ConceptRegistry.get_init, List.reverse_append]
      have hp : (fun d : ConceptRecord => decide (d.concept_id = c1.concept_id)) c2 = true := by
        simp [hid]
      simp [List.find?, hp]
    · rw [ConceptRegistry.by_role_init_mem]
      exact ⟨c1, List.mem_append_right pre (List.mem_cons_self c1 [c2]), rfl, rfl⟩
    · rw [ConceptRegistry.by_role_init_mem]
      refine ⟨c2, List.mem_append_right pre ?_, rfl, hid.symm⟩
      exact List.mem_cons_of_mem c1 (List.mem_singleton.mpr rfl)

/-- Witness for claim C10: all three parts at concrete inputs; in the
duplicate part the later concept wins in `get` while the earlier concept's
role entry survives in the role index. -/
theorem claim_C10_witness :
    (5 ∈ (ConceptRegistry.init [⟨5, "A", "x", [], none, none⟩] [] none).by_role "x"
      ↔ ∃ rec, (ConceptRegistry.init [⟨5, "A", "x", [], none, none⟩] [] none).get 5 = some rec
          ∧ rec.role = "x")
    ∧ (ConceptRegistry.init [⟨5, "A", "x", [], none, none⟩] [] none).try_by_label "A" = some 5
    ∧ ((ConceptRegistry.init [⟨1, "A", "x", [], none, none⟩, ⟨1, "B", "y", [], none, none⟩]
          [] none).get 1 = some ⟨1, "B", "y", [], none, none⟩
        ∧ (1 : Int) ∈ (ConceptRegistry.init [⟨1, "A", "x", [], none, none⟩,
            ⟨1, "B", "y", [], none, none⟩] [] none).by_role "x"
        ∧ (1 : Int) ∈ (ConceptRegistry.init [⟨1, "A", "x", [], none, none⟩,
            ⟨1, "B", "y", [], none, none⟩] [] none).by_role "y") :=
  ⟨(claim_C10 [⟨5, "A", "x", [], none, none⟩] [] none).1 (by decide) "x" 5,
   (claim_C10 [⟨5, "A", "x", [], none, none⟩] [] none).2.1 (by decide)
     ⟨5, "A", "x", [], none, none⟩ (by decide),
   (claim_C10 [] [] none).2.2 [⟨1, "A", "x", [], none, none⟩]
     ⟨1, "A", "x", [], none, none⟩ ⟨1, "B", "y", [], none, none⟩ (by decide)⟩

end OmopSemantics
